import Mathlib

/-!
Verification of the evcc loadpoint control core against its specification.

This file contains a shallow embedding of the per-loadpoint control logic:
the phase-count helpers (activePhases / maxActivePhases), the PV surplus
current controller (pvMaxCurrent) with its enable/disable hysteresis timers,
the 1p/3p phase-scaling state machine (pvScalePhases / scalePhases), the
charger limit application (setLimit, Prepare) and the target-time planner
(planner.Timer.Active / Handle).

Modelling conventions:
* Go float64 values (currents, powers, durations in the loadpoint) are
  modelled as exact rationals.
* Go time.Time values in the loadpoint are rationals measured in seconds;
  the zero time is the rational 0 (matching time.Time.IsZero as the idle
  marker of the hysteresis timers).  The planner measures time in integer
  nanoseconds because it rounds to whole minutes.
* The injected clock (benbjohnson/clock) is passed to each step function as
  an explicit `now` argument.
* Charger hardware calls (Enable, MaxCurrent, Phases1p3p) are modelled by a
  record of boolean outcomes `Hw`; `true` means the call returns nil.
* Errors are `Option String` results (none = nil error).
-/

namespace Evcc

/-- Charge mode (api.ChargeMode): off, now, minpv, pv. -/
inductive ChargeMode where
  | off
  | now
  | minpv
  | pv
deriving DecidableEq, Repr

/-- Charge status (api.ChargeStatus): N is StatusNone, then A (no vehicle),
B (connected, not charging), C (charging). -/
inductive ChargeStatus where
  | N
  | A
  | B
  | C
deriving DecidableEq, Repr

/-- The slice of api.Vehicle visible to the embedded code: the reported phase
count and the climater state (none = no climater capability or an error from
it, some b = Climater() reports active = b). -/
structure Vehicle where
  phases : ℤ
  climate : Option Bool
deriving DecidableEq, Repr

/-- ThresholdConfig defines enable/disable hysteresis parameters. -/
structure ThresholdConfig where
  Delay : ℚ
  Threshold : ℚ
deriving DecidableEq, Repr

/-- Outcomes of the charger hardware calls a step may issue: true means the
call returns a nil error. -/
structure Hw where
  enableOk : Bool
  maxCurrentOk : Bool
  switchOk : Bool
deriving DecidableEq, Repr

/-- The LoadPoint state, restricted to the fields read or written by the
functions embedded here. -/
structure LoadPoint where
  status : ChargeStatus
  enabled : Bool
  Phases : ℤ
  measuredPhases : ℤ
  vehicle : Option Vehicle
  chargeCurrent : ℚ
  chargeCurrents : Option (List ℚ)
  chargePower : ℚ
  MinCurrent : ℚ
  MaxCurrent : ℚ
  GuardDuration : ℚ
  Enable : ThresholdConfig
  Disable : ThresholdConfig
  guardUpdated : ℚ
  pvTimer : ℚ
  phaseTimer : ℚ
  hasChargePhases : Bool
  hasChargerEx : Bool
deriving DecidableEq, Repr

/-- Go math.MaxInt for a 64-bit int, the start value of the variadic min
helper in loadpoint_phases.go. -/
def maxIntGo : ℤ := 2 ^ 63 - 1

/-- The variadic min helper of loadpoint_phases.go: folds over the arguments
keeping the smaller value, starting from math.MaxInt. -/
def goMin (xs : List ℤ) : ℤ :=
  xs.foldl (fun v i => if i < v then i else v) maxIntGo

/-- unknownPhases: assume 3p for a switchable charger during startup. -/
def unknownPhases : ℤ := 3

/-- expect substitutes unknownPhases for a non-positive phase count. -/
def expect (phases : ℤ) : ℤ :=
  if 0 < phases then phases else unknownPhases

/-- getVehiclePhases returns the phases reported by the attached vehicle, or
0 when no vehicle is attached. -/
def LoadPoint.getVehiclePhases (lp : LoadPoint) : ℤ :=
  match lp.vehicle with
  | some v => v.phases
  | none => 0

/-- activePhases returns the number of expectedly active phases for the
meter: the minimum of vehicle, configured and measured phases, each with the
unknown default applied. -/
def LoadPoint.activePhases (lp : LoadPoint) : ℤ :=
  goMin [expect lp.getVehiclePhases, expect lp.Phases, expect lp.measuredPhases]

/-- maxActivePhases returns the maximum number of active phases for the
meter: during 1p or unknown config, or a 1p vehicle, the measured value is no
restriction; a 1p3p-switchable charger is assumed capable of 3p. -/
def LoadPoint.maxActivePhases (lp : LoadPoint) : ℤ :=
  let physical := lp.Phases
  let measured := lp.measuredPhases
  let vehicle := lp.getVehiclePhases
  let measured1 := if physical ≤ 1 ∨ vehicle = 1 then 0 else measured
  let physical1 := if lp.hasChargePhases then 3 else physical
  goMin [expect vehicle, expect physical1, expect measured1]

/-- The specification reading of the unknown default: substitute 3 for a zero
(unknown) input. -/
def subst3 (n : ℤ) : ℤ := if n = 0 then 3 else n

/-- The specification reading of activePhases: minimum of the three values
after substituting 3 for any zero input. -/
def specActivePhases (vehicle physical measured : ℤ) : ℤ :=
  min (subst3 vehicle) (min (subst3 physical) (subst3 measured))

/-- The specification reading of maxActivePhases: as specActivePhases, after
first zeroing the measured input when the configured phases are at most 1 or
the vehicle reports exactly 1 phase, and forcing the configured phases to 3
when the charger supports 1p3p switching. -/
def specMaxActivePhases (capable : Bool) (vehicle physical measured : ℤ) : ℤ :=
  specActivePhases vehicle (if capable then 3 else physical)
    (if physical ≤ 1 ∨ vehicle = 1 then 0 else measured)

theorem goMin_three_eq (a b c : ℤ) (ha : a ≤ maxIntGo) :
    goMin [a, b, c] = min a (min b c) := by
  simp only [goMin, List.foldl]
  split <;> split <;> split <;> omega

theorem expect_eq_subst3 (n : ℤ) (h : 0 ≤ n) : expect n = subst3 n := by
  simp only [expect, subst3, unknownPhases]
  omega

theorem expect_le_three (n : ℤ) (h : n ≤ 3) : expect n ≤ 3 := by
  simp only [expect, unknownPhases]
  omega

theorem activePhases_eq_spec (lp : LoadPoint)
    (hv : 0 ≤ lp.getVehiclePhases) (hv3 : lp.getVehiclePhases ≤ 3)
    (hp : 0 ≤ lp.Phases) (hm : 0 ≤ lp.measuredPhases) :
    lp.activePhases
      = specActivePhases lp.getVehiclePhases lp.Phases lp.measuredPhases := by
  have h := expect_le_three lp.getVehiclePhases hv3
  rw [LoadPoint.activePhases,
    goMin_three_eq _ _ _ (by simp only [maxIntGo] at * ; omega)]
  simp only [specActivePhases, expect, subst3, unknownPhases]
  split_ifs <;> omega

theorem maxActivePhases_eq_spec (lp : LoadPoint)
    (hv : 0 ≤ lp.getVehiclePhases) (hv3 : lp.getVehiclePhases ≤ 3)
    (hp : 0 ≤ lp.Phases) (hm : 0 ≤ lp.measuredPhases) :
    lp.maxActivePhases
      = specMaxActivePhases lp.hasChargePhases lp.getVehiclePhases lp.Phases
          lp.measuredPhases := by
  have h := expect_le_three lp.getVehiclePhases hv3
  rw [LoadPoint.maxActivePhases,
    goMin_three_eq _ _ _ (by simp only [maxIntGo] at * ; omega)]
  simp only [specMaxActivePhases, specActivePhases, expect, subst3, unknownPhases]
  split_ifs <;> omega

/-- Go math.Min on exact rationals. -/
def mathMin (a b : ℚ) : ℚ := if a ≤ b then a else b

/-- Go math.Max on exact rationals. -/
def mathMax (a b : ℚ) : ℚ := if a ≤ b then b else a

theorem mathMin_eq (a b : ℚ) : mathMin a b = min a b := (min_def a b).symm

theorem mathMax_eq (a b : ℚ) : mathMax a b = max a b := (max_def a b).symm

/-- The fixed nominal voltage (the package variable Voltage); 230 V as set by
the repository tests and the end-to-end example of the specification. -/
def Voltage : ℚ := 230

/-- Modelled from the spec: the helper powerToCurrent is absent from the
provided sources (only its callers in loadpoint.go are present).  Section 4.1
of the spec defines it by P = U times I times phases at the fixed nominal
voltage, hence I = P divided by (U times phases). -/
def powerToCurrent (power : ℚ) (phases : ℤ) : ℚ :=
  power / (Voltage * (phases : ℚ))

/-- effectiveCurrent returns the currently effective charging current: 0 when
not charging, else the actual current bounded by min(first phase current + 2A,
chargeCurrent) when per-phase currents are available. -/
def LoadPoint.effectiveCurrent (lp : LoadPoint) : ℚ :=
  if lp.status ≠ ChargeStatus.C then 0
  else
    match lp.chargeCurrents with
    | some cs => mathMin (cs.headD 0 + 2) lp.chargeCurrent
    | none => lp.chargeCurrent

/-- The time an expired timer is set to (the package variable
elapsed = time.Unix(0, 1)), i.e. one nanosecond after the epoch, in seconds. -/
def elapsed : ℚ := 1 / 1000000000

/-- elapsePVTimer puts the pv enable/disable timer into elapsed state and also
rewinds the guard timestamp. -/
def LoadPoint.elapsePVTimer (lp : LoadPoint) : LoadPoint :=
  { lp with pvTimer := elapsed, guardUpdated := elapsed }

/-- resetPVTimerIfRunning resets the pv enable/disable timer to disabled
state when it is running. -/
def LoadPoint.resetPVTimerIfRunning (lp : LoadPoint) : LoadPoint :=
  if lp.pvTimer = 0 then lp else { lp with pvTimer := 0 }

/-- Truncation toward zero, the semantics of Go math.Trunc and of the
float64-to-integer conversions (time.Duration casts, Duration.Truncate). -/
def ratTrunc (q : ℚ) : ℤ :=
  q.num.tdiv (q.den : ℤ)

/-- The enable/disable section of LoadPoint.setLimit: compares the requested
enabled state with the current one, honours the contactor guard duration
unless forced, and issues the Enable call. -/
def setLimitEnable (hw : Hw) (now : ℚ) (chargeCurrent : ℚ) (force : Bool)
    (lp : LoadPoint) : Option String × LoadPoint :=
  let enabled : Bool := decide (lp.MinCurrent ≤ chargeCurrent)
  if enabled ≠ lp.enabled then
    let remaining : ℚ := (ratTrunc (lp.GuardDuration - (now - lp.guardUpdated)) : ℤ)
    if 0 < remaining ∧ force = false then (none, lp)
    else if hw.enableOk then
      (none, { lp with enabled := enabled, guardUpdated := now })
    else (some "charger enable call failed", lp)
  else (none, lp)

/-- setLimit applies charger current limits and enables/disables accordingly.
Without the ChargerEx capability the requested current is truncated to whole
amps before being sent and stored. -/
def setLimit (hw : Hw) (now : ℚ) (chargeCurrent : ℚ) (force : Bool)
    (lp : LoadPoint) : Option String × LoadPoint :=
  if chargeCurrent ≠ lp.chargeCurrent ∧ lp.MinCurrent ≤ chargeCurrent then
    let cc := if lp.hasChargerEx then chargeCurrent else ((ratTrunc chargeCurrent : ℤ) : ℚ)
    if hw.maxCurrentOk then setLimitEnable hw now cc force { lp with chargeCurrent := cc }
    else (some "max charge current call failed", lp)
  else setLimitEnable hw now chargeCurrent force lp

/-- Modelled from the spec: LoadPoint.setPhases is absent from the provided
sources (only its callers are).  Per the round-trip property in section 8 of
the spec, a phase switch updates the configured phase count so that a
following GetPhases returns it. -/
def LoadPoint.setPhases (lp : LoadPoint) (phases : ℤ) : LoadPoint :=
  { lp with Phases := phases }

/-- scalePhases adjusts the number of active phases: when the requested count
differs it disables the charger (forced, bypassing the guard), invokes the
hardware 1p3p switch, and only on success records the new phase count and
force-elapses the PV timer. -/
def scalePhases (hw : Hw) (now : ℚ) (phases : ℤ) (lp : LoadPoint) :
    Option String × LoadPoint :=
  if lp.Phases ≠ phases then
    match setLimit hw now 0 true lp with
    | (some e, lp1) => (some e, lp1)
    | (none, lp1) =>
      if hw.switchOk then (none, (lp1.setPhases phases).elapsePVTimer)
      else (some "switch phases call failed", lp1)
  else (none, lp)

/-- The scale-up half of pvScalePhases, evaluated after the scale-down half
did not return; waiting records whether the scale-down timer is pending so
that the shared phase timer is only reset when neither direction waits. -/
def pvScaleUp (hw : Hw) (now : ℚ) (availablePower minCurrent : ℚ) (phases : ℤ)
    (waiting : Bool) (lp : LoadPoint) : Bool × LoadPoint :=
  let maxPhases := lp.maxActivePhases
  let scalable := 1 < maxPhases ∧ phases < maxPhases
  if minCurrent ≤ powerToCurrent availablePower maxPhases ∧ scalable then
    let lp1 := if lp.phaseTimer = 0 then { lp with phaseTimer := now } else lp
    if lp1.Enable.Delay ≤ now - lp1.phaseTimer then
      (true, (scalePhases hw now 3 lp1).2)
    else (false, lp1)
  else
    if waiting = false ∧ lp.phaseTimer ≠ 0 then (false, { lp with phaseTimer := 0 })
    else (false, lp)

/-- pvScalePhases switches phases if necessary and returns whether a switch
was commanded this cycle. -/
def pvScalePhases (hw : Hw) (now : ℚ) (availablePower minCurrent maxCurrent : ℚ)
    (lp : LoadPoint) : Bool × LoadPoint :=
  let phases := lp.Phases
  let activeP := lp.activePhases
  let targetCurrent := powerToCurrent availablePower activeP
  if targetCurrent < minCurrent ∧ 1 < activeP then
    let lp1 := if lp.phaseTimer = 0 then { lp with phaseTimer := now } else lp
    if lp1.Disable.Delay ≤ now - lp1.phaseTimer then
      (true, (scalePhases hw now 1 lp1).2)
    else pvScaleUp hw now availablePower minCurrent phases true lp1
  else pvScaleUp hw now availablePower minCurrent phases false lp

/-- climateActive checks if the vehicle has an active climate request. -/
def climateActive (lp : LoadPoint) : Bool :=
  match lp.vehicle with
  | some v => v.climate.getD false
  | none => false

/-- The target charge current computed by pvMaxCurrent from delta power and
the actual current: max(effectiveCurrent + powerToCurrent(-sitePower,
activePhases), 0). -/
def LoadPoint.pvTarget (lp : LoadPoint) (sitePower : ℚ) : ℚ :=
  mathMax (lp.effectiveCurrent + powerToCurrent (-sitePower) lp.activePhases) 0

/-- pvMaxCurrent calculates the maximum target current for PV mode, running
the phase-scaling machine first for switchable chargers and applying the
enable/disable hysteresis in plain PV mode. -/
def pvMaxCurrent (hw : Hw) (now : ℚ) (mode : ChargeMode) (sitePower : ℚ)
    (batteryBuffered : Bool) (lp : LoadPoint) : ℚ × LoadPoint :=
  let minCurrent := lp.MinCurrent
  let maxCurrent := lp.MaxCurrent
  let scaled :=
    if lp.hasChargePhases then
      pvScalePhases hw now (-sitePower + lp.chargePower) minCurrent maxCurrent lp
    else (false, lp)
  if scaled.1 then (0, scaled.2)
  else
    let lp1 := scaled.2
    let targetCurrent := lp1.pvTarget sitePower
    if (mode = ChargeMode.minpv ∨ batteryBuffered ∨ climateActive lp1)
        ∧ targetCurrent < minCurrent then
      (minCurrent, lp1)
    else if mode = ChargeMode.pv ∧ lp1.enabled ∧ targetCurrent < minCurrent then
      if lp1.Disable.Threshold ≤ sitePower ∧ lp1.phaseTimer = 0 then
        let lp2 := if lp1.pvTimer = 0 then { lp1 with pvTimer := now } else lp1
        if lp2.Disable.Delay ≤ now - lp2.pvTimer then (0, lp2)
        else (minCurrent, lp2)
      else (minCurrent, lp1.resetPVTimerIfRunning)
    else if mode = ChargeMode.pv ∧ lp1.enabled = false then
      if (lp1.Enable.Threshold = 0 ∧ minCurrent ≤ targetCurrent)
          ∨ (lp1.Enable.Threshold ≠ 0 ∧ sitePower ≤ lp1.Enable.Threshold) then
        let lp2 := if lp1.pvTimer = 0 then { lp1 with pvTimer := now } else lp1
        if lp2.Enable.Delay ≤ now - lp2.pvTimer then (minCurrent, lp2)
        else (0, lp2)
      else (0, lp1.resetPVTimerIfRunning)
    else
      (mathMin targetCurrent maxCurrent, lp1.resetPVTimerIfRunning)

/-- The initial charger-state read of LoadPoint.Prepare: adopt the enabled
state reported by the charger (none models a read error, which leaves the
default disabled state); when enabled, stamp the guard and set the defined
minimum current for use by pv mode, ignoring any error. -/
def prepareInit (hw : Hw) (now : ℚ) (chargerEnabled : Option Bool) (lp : LoadPoint) :
    LoadPoint :=
  match chargerEnabled with
  | none => lp
  | some en =>
    let lp1 := { lp with enabled := en }
    if en then
      let lp2 := { lp1 with guardUpdated := now }
      (setLimit hw now lp2.MinCurrent false lp2).2
    else lp1

/-- One recorded setLimit invocation: hardware outcomes, requested current,
force flag, and the injected clock value at the time of the call. -/
structure LimitCall where
  hw : Hw
  amps : ℚ
  force : Bool
  tm : ℚ
deriving DecidableEq, Repr

/-- Applies a sequence of setLimit calls, advancing the injected clock before
each call. -/
def setLimitRun : LoadPoint → List LimitCall → LoadPoint
  | lp, [] => lp
  | lp, c :: rest => setLimitRun (setLimit c.hw c.tm c.amps c.force lp).2 rest

/-- The target charging handler state (planner.Timer): its internal current,
the projected finish time (integer nanoseconds), the active flag, and the
demand-validated flag. -/
structure Timer where
  current : ℚ
  finishAt : ℤ
  active : Bool
  validated : Bool
deriving DecidableEq, Repr

/-- The planner adapter environment: everything planner.Timer.Active and
Handle read from the owning loadpoint and from the wall clock.  The target
time is 0 when unset (time.Time.IsZero); the estimator is a function from the
charging power to the assumed charge duration in nanoseconds, absent when
SocEstimator returns nil. -/
structure Adapter where
  maxPower : ℚ
  maxCurrent : ℚ
  minCurrent : ℚ
  status : ChargeStatus
  targetTime : ℤ
  now : ℤ
  assumedChargeDuration : Option (ℚ → ℤ)

/-- Modelled from the spec: the fixed charge-efficiency factor
(soc.ChargeEfficiency) by which the assumed charge duration is divided; the
soc estimator package is absent from the provided sources.  Its concrete
value is not fixed by the spec; 9/10 is used here. -/
def ChargeEfficiency : ℚ := 9 / 10

/-- The remaining duration computed by the planner: the assumed charge
duration divided by the charge efficiency, cast back to an integer duration
(Go time.Duration conversion truncates toward zero). -/
def remainingOf (assumed : ℤ) : ℤ :=
  ratTrunc ((assumed : ℚ) / ChargeEfficiency)

/-- One minute in nanoseconds. -/
def minuteNs : ℤ := 60 * 1000000000

/-- Go time.Time.Round to the nearest minute for non-negative nanosecond
timestamps; halfway values round up. -/
def roundMinute (t : ℤ) : ℤ :=
  let r := t % minuteNs
  if 2 * r < minuteNs then t - r else t + (minuteNs - r)

/-- The 30 minute deviation window of the planner. -/
def deviation : ℤ := 30 * minuteNs

/-- Timer.Active calculates the remaining charge duration and returns true if
charge start is required to achieve the target soc in time.  Returns the
active flag together with the updated timer state. -/
def Timer.Active (env : Adapter) (p : Timer) : Bool × Timer :=
  if env.targetTime = 0 then (false, p)
  else
    let p1 := { p with validated := true }
    let power :=
      if p.active then env.maxPower * (p.current / env.maxCurrent) else env.maxPower
    match env.assumedChargeDuration with
    | none => (false, p1)
    | some assumed =>
      let remainingDuration := remainingOf (assumed power)
      let finishAt := roundMinute (env.now + remainingDuration)
      let p2 := { p1 with finishAt := finishAt }
      if p.active then
        if env.targetTime < env.now ∧ env.status ≠ ChargeStatus.C then
          (false, { p2 with active := false })
        else (true, p2)
      else if env.targetTime < finishAt then
        (true, { p2 with active := true, current := env.maxCurrent })
      else (false, p2)

/-- Timer.Handle adjusts the internal current up or down to achieve the
desired target time and returns it clamped between the minimum and maximum
currents. -/
def Timer.Handle (env : Adapter) (p : Timer) : ℚ × Timer :=
  let cur :=
    if p.finishAt < env.targetTime - deviation then p.current - 1
    else if env.targetTime < p.finishAt then p.current + 1
    else p.current
  let cur2 := mathMax (mathMin cur env.maxCurrent) env.minCurrent
  (cur2, { p with current := cur2 })

/-- The specification reading of Handle: nudge the internal current down one
unit when the projected finish is earlier than the target minus the deviation
window, up one unit when later than the target, else hold; return the result
clamped into the interval from minCurrent to maxCurrent. -/
def specHandle (targetTime : ℤ) (minC maxC : ℚ) (finishAt : ℤ) (current : ℚ) : ℚ :=
  let adjusted :=
    if finishAt < targetTime - deviation then current - 1
    else if targetTime < finishAt then current + 1
    else current
  if adjusted < minC then minC
  else if maxC < adjusted then maxC
  else adjusted

/-- A hardware outcome record on which every charger call succeeds. -/
def hwOk : Hw := ⟨true, true, true⟩

/-- A sample loadpoint state for concrete instantiations: plain charger (no
1p3p switching, no fine-grained current control), 3p configured, no vehicle,
charging at 6 A, min 6 A / max 16 A, 60 s hysteresis delays, thresholds 0,
5 min guard, clock at one hour, all timers idle. -/
def lpBase : LoadPoint := {
  status := ChargeStatus.C
  enabled := true
  Phases := 3
  measuredPhases := 0
  vehicle := none
  chargeCurrent := 6
  chargeCurrents := none
  chargePower := 0
  MinCurrent := 6
  MaxCurrent := 16
  GuardDuration := 300
  Enable := ⟨60, 0⟩
  Disable := ⟨60, 0⟩
  guardUpdated := 0
  pvTimer := 0
  phaseTimer := 0
  hasChargePhases := false
  hasChargerEx := false }

theorem phasesRange_bounds {n : ℤ} (h : n ∈ ([0, 1, 2, 3] : List ℤ)) :
    0 ≤ n ∧ n ≤ 3 := by
  simp only [List.mem_cons, List.mem_singleton, List.not_mem_nil, or_false] at h
  omega

/-- Claim C3: for every combination of configured (physical) phases, vehicle
phases and measured phases (each in 0..3), activePhases equals the minimum of
the three after substituting 3 for any zero input, and maxActivePhases equals
the same minimum after forcing the configured phases to 3 for a switchable
charger and zeroing the measured input when the configured phases are at most
1 or the vehicle reports exactly 1 phase; in particular physical=3, vehicle=0,
measured=2 gives active=2, max=2, and a switchable charger with physical=0,
vehicle=0, measured=0 gives active=3, max=3. -/
theorem c3_active_and_max_phases (lp : LoadPoint)
    (hp : lp.Phases ∈ ([0, 1, 2, 3] : List ℤ))
    (hv : lp.getVehiclePhases ∈ ([0, 1, 2, 3] : List ℤ))
    (hm : lp.measuredPhases ∈ ([0, 1, 2, 3] : List ℤ)) :
    lp.activePhases
        = specActivePhases lp.getVehiclePhases lp.Phases lp.measuredPhases
      ∧ lp.maxActivePhases
        = specMaxActivePhases lp.hasChargePhases lp.getVehiclePhases lp.Phases
            lp.measuredPhases
      ∧ (lp.Phases = 3 → lp.getVehiclePhases = 0 → lp.measuredPhases = 2 →
          lp.hasChargePhases = false →
          lp.activePhases = 2 ∧ lp.maxActivePhases = 2)
      ∧ (lp.Phases = 0 → lp.getVehiclePhases = 0 → lp.measuredPhases = 0 →
          lp.hasChargePhases = true →
          lp.activePhases = 3 ∧ lp.maxActivePhases = 3) := by
  obtain ⟨hp0, hp3⟩ := phasesRange_bounds hp
  obtain ⟨hv0, hv3⟩ := phasesRange_bounds hv
  obtain ⟨hm0, hm3⟩ := phasesRange_bounds hm
  refine ⟨activePhases_eq_spec lp hv0 hv3 hp0 hm0,
    maxActivePhases_eq_spec lp hv0 hv3 hp0 hm0, ?_, ?_⟩
  · intro h1 h2 h3 h4
    constructor <;>
      · simp only [LoadPoint.activePhases, LoadPoint.maxActivePhases, h1, h2, h3, h4]
        decide
  · intro h1 h2 h3 h4
    constructor <;>
      · simp only [LoadPoint.activePhases, LoadPoint.maxActivePhases, h1, h2, h3, h4]
        decide

/-- Witness for C3 at physical=3, vehicle unknown, measured=2, non-switchable
charger. -/
theorem c3_witness :
    ({ lpBase with measuredPhases := 2 } : LoadPoint).Phases ∈ ([0, 1, 2, 3] : List ℤ)
      ∧ ({ lpBase with measuredPhases := 2 } : LoadPoint).activePhases = 2
      ∧ ({ lpBase with measuredPhases := 2 } : LoadPoint).maxActivePhases = 2 := by
  refine ⟨by decide, ?_⟩
  have h := c3_active_and_max_phases { lpBase with measuredPhases := 2 }
    (by decide) (by decide) (by decide)
  exact h.2.2.1 (by decide) (by decide) (by decide) (by decide)

/-- With all three phase inputs in 0..3, activePhases never exceeds
maxActivePhases, and for non-negative minCurrent the scale-down condition and
the scale-up power condition are mutually exclusive. -/
theorem active_le_max_exclusive (lp : LoadPoint) (availablePower minCurrent : ℚ)
    (hp : lp.Phases ∈ ([0, 1, 2, 3] : List ℤ))
    (hv : lp.getVehiclePhases ∈ ([0, 1, 2, 3] : List ℤ))
    (hm : lp.measuredPhases ∈ ([0, 1, 2, 3] : List ℤ))
    (hmin : 0 ≤ minCurrent) :
    lp.activePhases ≤ lp.maxActivePhases
      ∧ ¬((powerToCurrent availablePower lp.activePhases < minCurrent
            ∧ 1 < lp.activePhases)
          ∧ minCurrent ≤ powerToCurrent availablePower lp.maxActivePhases) := by
  obtain ⟨hp0, hp3⟩ := phasesRange_bounds hp
  obtain ⟨hv0, hv3⟩ := phasesRange_bounds hv
  obtain ⟨hm0, hm3⟩ := phasesRange_bounds hm
  have hle : lp.activePhases ≤ lp.maxActivePhases := by
    rw [activePhases_eq_spec lp hv0 hv3 hp0 hm0,
      maxActivePhases_eq_spec lp hv0 hv3 hp0 hm0]
    simp only [specMaxActivePhases, specActivePhases, subst3]
    split_ifs <;> omega
  refine ⟨hle, ?_⟩
  rintro ⟨⟨hdown, hact⟩, hup⟩
  have hmaxpos : (0 : ℚ) < (lp.maxActivePhases : ℚ) := by
    have : (1 : ℤ) < lp.maxActivePhases := lt_of_lt_of_le hact hle
    exact_mod_cast lt_trans zero_lt_one this
  have hactpos : (0 : ℚ) < (lp.activePhases : ℚ) := by
    exact_mod_cast lt_trans zero_lt_one hact
  have hpow : 0 ≤ availablePower := by
    by_contra hneg
    push_neg at hneg
    have : powerToCurrent availablePower lp.maxActivePhases < 0 := by
      rw [powerToCurrent]
      apply div_neg_of_neg_of_pos hneg
      have : (0 : ℚ) < Voltage := by norm_num [Voltage]
      positivity
    linarith
  have hmono : powerToCurrent availablePower lp.maxActivePhases
      ≤ powerToCurrent availablePower lp.activePhases := by
    rw [powerToCurrent, powerToCurrent]
    have hV : (0 : ℚ) < Voltage := by norm_num [Voltage]
    apply div_le_div_of_nonneg_left hpow (by positivity)
    have : (lp.activePhases : ℚ) ≤ (lp.maxActivePhases : ℚ) := by exact_mod_cast hle
    nlinarith
  linarith

/-- Claim C10: with all three phase inputs in 0..3, activePhases never
exceeds maxActivePhases, and for non-negative minCurrent the scale-down
condition (powerToCurrent(availablePower, activePhases) < minCurrent with
activePhases > 1) and the scale-up power condition
(powerToCurrent(availablePower, maxActivePhases) >= minCurrent) are mutually
exclusive, so pvScalePhases never debounces both directions in one tick. -/
theorem c10_active_le_max_and_exclusive (lp : LoadPoint) (availablePower minCurrent : ℚ)
    (hp : lp.Phases ∈ ([0, 1, 2, 3] : List ℤ))
    (hv : lp.getVehiclePhases ∈ ([0, 1, 2, 3] : List ℤ))
    (hm : lp.measuredPhases ∈ ([0, 1, 2, 3] : List ℤ))
    (hmin : 0 ≤ minCurrent) :
    lp.activePhases ≤ lp.maxActivePhases
      ∧ ¬((powerToCurrent availablePower lp.activePhases < minCurrent
            ∧ 1 < lp.activePhases)
          ∧ minCurrent ≤ powerToCurrent availablePower lp.maxActivePhases) :=
  active_le_max_exclusive lp availablePower minCurrent hp hv hm hmin

/-- Witness for C10 at physical=3, vehicle unknown, measured=0, available
power 2000 W, minCurrent 6 A. -/
theorem c10_witness :
    (0 : ℚ) ≤ 6
      ∧ lpBase.activePhases ≤ lpBase.maxActivePhases
      ∧ ¬((powerToCurrent 2000 lpBase.activePhases < 6 ∧ 1 < lpBase.activePhases)
          ∧ (6 : ℚ) ≤ powerToCurrent 2000 lpBase.maxActivePhases) :=
  ⟨by norm_num,
    c10_active_le_max_and_exclusive lpBase 2000 6 (by decide) (by decide) (by decide)
      (by norm_num)⟩

theorem clamp_eq (m M c : ℚ) (h : m ≤ M) :
    mathMax (mathMin c M) m = if c < m then m else if M < c then M else c := by
  unfold mathMax mathMin
  split_ifs <;> linarith

/-- Claim C6: each Handle call decreases the internal current by one unit
when the projected finish is earlier than the target minus the 30 minute
deviation window, increases it by one unit when the projected finish is later
than the target, otherwise leaves it unchanged, and in every case returns the
internal current clamped into the interval from minCurrent to maxCurrent
(stated for a well-formed interval), storing the clamped value back. -/
theorem c6_planner_handle (env : Adapter) (p : Timer)
    (h : env.minCurrent ≤ env.maxCurrent) :
    Timer.Handle env p
      = (specHandle env.targetTime env.minCurrent env.maxCurrent p.finishAt p.current,
         { p with current := specHandle env.targetTime env.minCurrent env.maxCurrent p.finishAt p.current }) := by
  simp only [Timer.Handle, specHandle]
  rw [clamp_eq _ _ _ h]

/-- The planner adapter environment used by concrete planner instantiations:
target soc deadline 10 s after the epoch, evaluation at the epoch, and an
estimator that always reports an assumed duration of 18 s (which the charge
efficiency stretches to 20 s). -/
def envP : Adapter := {
  maxPower := 11000
  maxCurrent := 16
  minCurrent := 6
  status := ChargeStatus.C
  targetTime := 10000000000
  now := 0
  assumedChargeDuration := some fun _ => 18000000000 }

/-- An idle planner timer. -/
def pIdle : Timer := ⟨0, 0, false, false⟩

/-- Witness for C6 at the concrete planner environment. -/
theorem c6_witness :
    envP.minCurrent ≤ envP.maxCurrent
      ∧ Timer.Handle envP pIdle
        = (specHandle envP.targetTime envP.minCurrent envP.maxCurrent pIdle.finishAt pIdle.current,
           { pIdle with current := specHandle envP.targetTime envP.minCurrent envP.maxCurrent pIdle.finishAt pIdle.current }) :=
  ⟨by norm_num [envP], c6_planner_handle envP pIdle (by norm_num [envP])⟩

/-- Counterexample to C5 as stated: with the target time 10 s after the
epoch, evaluation now at the epoch, and an assumed duration that yields a
remaining duration of 20 s, the unrounded projected finish (now plus assumed
duration divided by the charge efficiency) lies after the target time, yet
Active does not activate the planner, because the stored finish time is
rounded to the nearest minute (here to the epoch itself). -/
theorem c5_counterexample :
    (Timer.Active envP pIdle).1 = false
      ∧ ((Timer.Active envP pIdle).2).active = false
      ∧ envP.assumedChargeDuration = some (fun _ => (18000000000 : ℤ))
      ∧ envP.targetTime < envP.now + remainingOf 18000000000
      ∧ envP.targetTime ≠ 0
      ∧ pIdle.active = false := by
  refine ⟨?_, ?_, rfl, ?_, by norm_num [envP], rfl⟩ <;>
    norm_num [Timer.Active, envP, pIdle, remainingOf, ratTrunc, ChargeEfficiency,
      roundMinute, minuteNs]

/-- Claim C5 (amended): Active returns false immediately when no target time
is set; when evaluated while inactive with a target time set and an estimator
available, it activates and seeds its internal current at maxCurrent exactly
when the projected finish time - now plus the assumed charge duration divided
by the charge-efficiency factor, rounded to the nearest minute - is later
than the target time; once active it stays active, returning true, until the
deadline has passed and the charge status is no longer C. -/
theorem c5_amended_planner_active (env : Adapter) (p : Timer) :
    (env.targetTime = 0 → Timer.Active env p = (false, p))
      ∧ (∀ assumed, env.targetTime ≠ 0
          → env.assumedChargeDuration = some assumed → p.active = false →
          (((Timer.Active env p).1 = true
              ↔ env.targetTime
                  < roundMinute (env.now + remainingOf (assumed env.maxPower)))
            ∧ ((Timer.Active env p).1 = true →
                ((Timer.Active env p).2).current = env.maxCurrent
                  ∧ ((Timer.Active env p).2).active = true)
            ∧ ((Timer.Active env p).1 = false →
                ((Timer.Active env p).2).active = false)))
      ∧ (∀ assumed, env.targetTime ≠ 0
          → env.assumedChargeDuration = some assumed → p.active = true →
          (((Timer.Active env p).1 = true
              ↔ ¬(env.targetTime < env.now ∧ env.status ≠ ChargeStatus.C))
            ∧ ((Timer.Active env p).2).active = (Timer.Active env p).1)) := by
  refine ⟨?_, ?_, ?_⟩
  · intro h
    simp only [Timer.Active, h, if_pos]
  · intro assumed h1 h2 h3
    by_cases hfin : env.targetTime
        < roundMinute (env.now + remainingOf (assumed env.maxPower)) <;>
      refine ⟨?_, ?_, ?_⟩ <;> simp [Timer.Active, h1, h2, h3, hfin]
  · intro assumed h1 h2 h3
    by_cases hstop : env.targetTime < env.now ∧ env.status ≠ ChargeStatus.C <;>
      refine ⟨?_, ?_⟩ <;> simp [Timer.Active, h1, h2, h3, hstop]

/-- Witness for C5 (amended): the inactive planner at the concrete
environment does not activate (projected finish rounds to the epoch, before
the target), and with no target time Active is the identity returning
false. -/
theorem c5_witness :
    envP.targetTime ≠ 0
      ∧ envP.assumedChargeDuration = some ((fun _ => 18000000000) : ℚ → ℤ)
      ∧ pIdle.active = false
      ∧ ((Timer.Active envP pIdle).1 = true
          ↔ envP.targetTime
              < roundMinute (envP.now
                  + remainingOf ((fun _ => (18000000000 : ℤ)) envP.maxPower))) := by
  refine ⟨by norm_num [envP], rfl, rfl, ?_⟩
  exact ((c5_amended_planner_active envP pIdle).2.1 (fun _ => 18000000000)
    (by norm_num [envP]) rfl rfl).1

theorem setLimit_preserves (hw : Hw) (now c : ℚ) (force : Bool) (lp : LoadPoint) :
    ((setLimit hw now c force lp).2).Phases = lp.Phases
      ∧ ((setLimit hw now c force lp).2).pvTimer = lp.pvTimer
      ∧ ((setLimit hw now c force lp).2).phaseTimer = lp.phaseTimer
      ∧ ((setLimit hw now c force lp).2).MinCurrent = lp.MinCurrent
      ∧ ((setLimit hw now c force lp).2).MaxCurrent = lp.MaxCurrent
      ∧ ((setLimit hw now c force lp).2).hasChargerEx = lp.hasChargerEx := by
  simp only [setLimit, setLimitEnable]
  split_ifs <;> simp

theorem pvScalePhases_not_fired (hw : Hw) (now a mi ma : ℚ) (lp : LoadPoint)
    (h : (pvScalePhases hw now a mi ma lp).1 = false) :
    (pvScalePhases hw now a mi ma lp).2
      = { lp with phaseTimer := (pvScalePhases hw now a mi ma lp).2.phaseTimer } := by
  simp only [pvScalePhases, pvScaleUp] at h ⊢
  split_ifs at h ⊢ <;> first | rfl | simp_all

/-- Counterexample to C1 as stated: at mode PV, site power -2000 W, charging
at 6 A on 3 active phases with min 6 A and max 16 A, pvMaxCurrent returns
6 + 2000/690 = 614/69 (about 8.9 A), not the claimed
6 + floor(2000/(230*3)) = 8 A; no flooring happens inside pvMaxCurrent (the
truncation to whole amps only happens later, in setLimit, for chargers
without the ChargerEx capability). -/
theorem c1_counterexample :
    (pvMaxCurrent hwOk 3600 ChargeMode.pv (-2000) false lpBase).1 = 614 / 69
      ∧ ⌊(2000 : ℚ) / (230 * 3)⌋ = 2
      ∧ (614 / 69 : ℚ) ≠ 6 + 2
      ∧ lpBase.activePhases = 3 ∧ lpBase.MinCurrent = 6 ∧ lpBase.MaxCurrent = 16
      ∧ lpBase.enabled = true := by
  refine ⟨?_, Int.floor_eq_iff.mpr (by norm_num), by norm_num, by decide, rfl, rfl, rfl⟩
  norm_num [pvMaxCurrent, LoadPoint.pvTarget, LoadPoint.effectiveCurrent,
    LoadPoint.activePhases, LoadPoint.getVehiclePhases, goMin, expect, unknownPhases,
    maxIntGo, climateActive, LoadPoint.resetPVTimerIfRunning, powerToCurrent, Voltage,
    mathMax, mathMin, lpBase, hwOk]

/-- Claim C1 (amended): for every pvMaxCurrent invocation in which no phase
scaling fires this tick, the pre-hysteresis target current is
max(effectiveCurrent + powerToCurrent(-sitePower, activePhases), 0), where
effectiveCurrent is 0 when the status is not C and min(first measured phase
current + 2 A, chargeCurrent) when per-phase currents are available, and in
the fall-through case (no mode floor, no hysteresis branch) the returned
current is that target capped at maxCurrent; at mode PV, sitePower -2000 W,
min 6 A, max 16 A, 3 active phases while charging at 6 A the returned current
is 6 + 2000/(230*3) = 614/69 (about 8.9 A), which lies within [6, 16]. -/
theorem c1_amended_pv_target (hw : Hw) (now : ℚ) (mode : ChargeMode) (sitePower : ℚ)
    (buffered : Bool) (lp : LoadPoint)
    (hscale : lp.hasChargePhases = true →
      (pvScalePhases hw now (-sitePower + lp.chargePower) lp.MinCurrent lp.MaxCurrent
        lp).1 = false) :
    (lp.status ≠ ChargeStatus.C → lp.effectiveCurrent = 0)
      ∧ (∀ cs, lp.status = ChargeStatus.C → lp.chargeCurrents = some cs →
          lp.effectiveCurrent = mathMin (cs.headD 0 + 2) lp.chargeCurrent)
      ∧ lp.pvTarget sitePower
          = mathMax (lp.effectiveCurrent + powerToCurrent (-sitePower) lp.activePhases) 0
      ∧ (¬((mode = ChargeMode.minpv ∨ buffered = true ∨ climateActive lp = true)
            ∧ lp.pvTarget sitePower < lp.MinCurrent) →
         ¬(mode = ChargeMode.pv ∧ lp.enabled = true
            ∧ lp.pvTarget sitePower < lp.MinCurrent) →
         ¬(mode = ChargeMode.pv ∧ lp.enabled = false) →
         (pvMaxCurrent hw now mode sitePower buffered lp).1
           = mathMin (lp.pvTarget sitePower) lp.MaxCurrent)
      ∧ (pvMaxCurrent hwOk 3600 ChargeMode.pv (-2000) false lpBase).1
          = 6 + 2000 / (230 * 3)
      ∧ (6 : ℚ) ≤ 6 + 2000 / (230 * 3) ∧ (6 : ℚ) + 2000 / (230 * 3) ≤ 16 := by
  refine ⟨?_, ?_, rfl, ?_, ?_, by norm_num, by norm_num⟩
  · intro h
    simp [LoadPoint.effectiveCurrent, h]
  · intro cs h1 h2
    simp [LoadPoint.effectiveCurrent, h1, h2]
  · intro hA hB hC
    rcases hcp : lp.hasChargePhases with _ | _
    · have hsc : (if lp.hasChargePhases then
          pvScalePhases hw now (-sitePower + lp.chargePower) lp.MinCurrent lp.MaxCurrent lp
          else (false, lp)) = (false, lp) := by
        simp [hcp]
      simp only [pvMaxCurrent, hsc]
      rw [if_neg (by simp), if_neg hA, if_neg hB, if_neg hC]
    · have hf := hscale hcp
      have hst := pvScalePhases_not_fired hw now (-sitePower + lp.chargePower)
        lp.MinCurrent lp.MaxCurrent lp hf
      obtain ⟨tv, htv⟩ : ∃ tv, (pvScalePhases hw now (-sitePower + lp.chargePower)
          lp.MinCurrent lp.MaxCurrent lp).2.phaseTimer = tv := ⟨_, rfl⟩
      rw [htv] at hst
      have hsc : (if lp.hasChargePhases then
          pvScalePhases hw now (-sitePower + lp.chargePower) lp.MinCurrent lp.MaxCurrent lp
          else (false, lp)) = (false, { lp with phaseTimer := tv }) := by
        rw [if_pos hcp]
        exact Prod.ext hf hst
      have hqT : ({ lp with phaseTimer := tv } : LoadPoint).pvTarget sitePower
          = lp.pvTarget sitePower := rfl
      have hqC : climateActive { lp with phaseTimer := tv } = climateActive lp := rfl
      simp only [pvMaxCurrent, hsc, hqT, hqC]
      rw [if_neg (by simp), if_neg hA, if_neg hB, if_neg hC]
  · norm_num [pvMaxCurrent, LoadPoint.pvTarget, LoadPoint.effectiveCurrent,
      LoadPoint.activePhases, LoadPoint.getVehiclePhases, goMin, expect, unknownPhases,
      maxIntGo, climateActive, LoadPoint.resetPVTimerIfRunning, powerToCurrent, Voltage,
      mathMax, mathMin, lpBase, hwOk]

/-- Witness for C1 (amended) at mode PV, site power -2000 W on the sample
charging state: the fall-through case applies and the returned current is
min(max(6 + 2000/690, 0), 16). -/
theorem c1_witness :
    lpBase.hasChargePhases = false
      ∧ (pvMaxCurrent hwOk 3600 ChargeMode.pv (-2000) false lpBase).1
          = mathMin (lpBase.pvTarget (-2000)) lpBase.MaxCurrent := by
  refine ⟨rfl, ?_⟩
  have h := c1_amended_pv_target hwOk 3600 ChargeMode.pv (-2000) false lpBase
    (by intro hx; exact absurd hx (by decide))
  refine h.2.2.2.1 ?_ ?_ ?_
  · rintro ⟨hm, hlt⟩
    have : lpBase.pvTarget (-2000) = 614 / 69 := by
      norm_num [LoadPoint.pvTarget, LoadPoint.effectiveCurrent, LoadPoint.activePhases,
        LoadPoint.getVehiclePhases, goMin, expect, unknownPhases, maxIntGo,
        powerToCurrent, Voltage, mathMax, lpBase]
    rw [this] at hlt
    have : lpBase.MinCurrent = 6 := rfl
    rw [this] at hlt
    norm_num at hlt
  · rintro ⟨-, -, hlt⟩
    have : lpBase.pvTarget (-2000) = 614 / 69 := by
      norm_num [LoadPoint.pvTarget, LoadPoint.effectiveCurrent, LoadPoint.activePhases,
        LoadPoint.getVehiclePhases, goMin, expect, unknownPhases, maxIntGo,
        powerToCurrent, Voltage, mathMax, lpBase]
    rw [this] at hlt
    have : lpBase.MinCurrent = 6 := rfl
    rw [this] at hlt
    norm_num at hlt
  · rintro ⟨-, hen⟩
    exact absurd hen (by decide)

/-- Claim C8: when scalePhases is called with a phase count different from
the configured one, it first forces the charger current limit to 0 with the
force flag set (bypassing the guard duration, so the charger is disabled
before the hardware switch regardless of the guard window); if the hardware
switch fails, scalePhases returns an error and the configured phase count is
unchanged (and the PV timer untouched); only on switch success is the phase
count updated and the PV timer (and guard timestamp) set to the force-elapsed
state; a failure of the disable step itself is returned without attempting
the switch; a call with the already-configured count is a no-op. -/
theorem c8_scale_phases_effects (hw : Hw) (now : ℚ) (lp : LoadPoint) (n : ℤ) :
    (lp.Phases = n → scalePhases hw now n lp = (none, lp))
      ∧ (lp.Phases ≠ n → (setLimit hw now 0 true lp).1 = none → hw.switchOk = false →
          scalePhases hw now n lp
              = (some "switch phases call failed", (setLimit hw now 0 true lp).2)
            ∧ ((setLimit hw now 0 true lp).2).Phases = lp.Phases
            ∧ ((setLimit hw now 0 true lp).2).pvTimer = lp.pvTimer)
      ∧ (lp.Phases ≠ n → (setLimit hw now 0 true lp).1 = none → hw.switchOk = true →
          (scalePhases hw now n lp).1 = none
            ∧ ((scalePhases hw now n lp).2).Phases = n
            ∧ ((scalePhases hw now n lp).2).pvTimer = elapsed
            ∧ ((scalePhases hw now n lp).2).guardUpdated = elapsed)
      ∧ (∀ e, lp.Phases ≠ n → (setLimit hw now 0 true lp).1 = some e →
          scalePhases hw now n lp = (some e, (setLimit hw now 0 true lp).2)
            ∧ ((setLimit hw now 0 true lp).2).Phases = lp.Phases)
      ∧ (lp.Phases ≠ n → lp.enabled = true → 0 < lp.MinCurrent → hw.enableOk = true →
          (setLimit hw now 0 true lp).1 = none
            ∧ ((setLimit hw now 0 true lp).2).enabled = false) := by
  obtain ⟨lp1, hlp1⟩ : ∃ x, (setLimit hw now 0 true lp).2 = x := ⟨_, rfl⟩
  refine ⟨?_, ?_, ?_, ?_, ?_⟩
  · intro h
    simp [scalePhases, h]
  · intro h1 h2 h3
    have hm : setLimit hw now 0 true lp = (none, lp1) := Prod.ext h2 hlp1
    have hp := (setLimit_preserves hw now 0 true lp).1
    have hpv := (setLimit_preserves hw now 0 true lp).2.1
    rw [hlp1] at hp hpv
    constructor
    · simp [scalePhases, h1, hm, h3, hlp1]
    · rw [hlp1]
      exact ⟨hp, hpv⟩
  · intro h1 h2 h3
    have hm : setLimit hw now 0 true lp = (none, lp1) := Prod.ext h2 hlp1
    simp [scalePhases, h1, hm, h3, LoadPoint.elapsePVTimer, LoadPoint.setPhases]
  · intro e h1 h2
    have hm : setLimit hw now 0 true lp = (some e, lp1) := Prod.ext h2 hlp1
    have hp := (setLimit_preserves hw now 0 true lp).1
    rw [hlp1] at hp
    constructor
    · simp [scalePhases, h1, hm, hlp1]
    · rw [hlp1]
      exact hp
  · intro h1 h2 h3 h4
    have h5 : ¬(lp.MinCurrent ≤ 0) := not_le.mpr h3
    constructor <;> simp [setLimit, setLimitEnable, h2, h4, h5]

/-- Witness for C8 on the sample state: scaling from 3p to 1p with all
hardware calls succeeding updates the phase count and force-elapses the PV
timer. -/
theorem c8_witness :
    lpBase.Phases ≠ 1
      ∧ (setLimit hwOk 3600 0 true lpBase).1 = none
      ∧ hwOk.switchOk = true
      ∧ (scalePhases hwOk 3600 1 lpBase).1 = none
      ∧ ((scalePhases hwOk 3600 1 lpBase).2).Phases = 1
      ∧ ((scalePhases hwOk 3600 1 lpBase).2).pvTimer = elapsed := by
  have hne : lpBase.Phases ≠ 1 := by decide
  have hsl : (setLimit hwOk 3600 0 true lpBase).1 = none := by
    norm_num [setLimit, setLimitEnable, ratTrunc, lpBase, hwOk]
  have h := (c8_scale_phases_effects hwOk 3600 lpBase 1).2.2.1 hne hsl rfl
  exact ⟨hne, hsl, rfl, h.1, h.2.1, h.2.2.1⟩

theorem ratTrunc_eq_floor (q : ℚ) (h : 0 ≤ q) : ratTrunc q = ⌊q⌋ := by
  rw [ratTrunc, Rat.floor_def]
  exact Int.tdiv_eq_ediv (Rat.num_nonneg.mpr h) (Int.natCast_nonneg q.den)

theorem le_ratTrunc_of_le (m c : ℚ) (hden : m.den = 1) (h0 : 0 ≤ m) (h : m ≤ c) :
    m ≤ ((ratTrunc c : ℤ) : ℚ) := by
  rw [ratTrunc_eq_floor c (le_trans h0 h)]
  rw [← Rat.coe_int_num_of_den_eq_one hden] at h ⊢
  exact_mod_cast Int.le_floor.mpr h

theorem setLimitEnable_inv (hw : Hw) (now cD : ℚ) (force : Bool) (s : LoadPoint)
    (hinv : s.enabled = true → s.MinCurrent ≤ s.chargeCurrent)
    (hrel : s.MinCurrent ≤ cD → s.MinCurrent ≤ s.chargeCurrent) :
    ((setLimitEnable hw now cD force s).2).enabled = true →
      ((setLimitEnable hw now cD force s).2).MinCurrent
        ≤ ((setLimitEnable hw now cD force s).2).chargeCurrent := by
  simp only [setLimitEnable]
  split_ifs with h1 h2 h3
  · exact hinv
  · intro he
    exact hrel (of_decide_eq_true he)
  · exact hinv
  · exact hinv

theorem minCurrent_le_sent (lp : LoadPoint) (c : ℚ)
    (hok : lp.hasChargerEx = true ∨ lp.MinCurrent.den = 1)
    (hmin : 0 ≤ lp.MinCurrent) (h : lp.MinCurrent ≤ c) :
    lp.MinCurrent ≤ if lp.hasChargerEx then c else ((ratTrunc c : ℤ) : ℚ) := by
  rcases hok with hex | hden
  · rw [hex]
    simpa using h
  · split_ifs with hex2
    · exact h
    · exact le_ratTrunc_of_le lp.MinCurrent c hden hmin h

theorem setLimit_keeps_invariant (hw : Hw) (now c : ℚ) (force : Bool) (lp : LoadPoint)
    (hmin : 0 ≤ lp.MinCurrent)
    (hok : lp.hasChargerEx = true ∨ lp.MinCurrent.den = 1)
    (hinv : lp.enabled = true → lp.MinCurrent ≤ lp.chargeCurrent) :
    ((setLimit hw now c force lp).2).enabled = true →
      ((setLimit hw now c force lp).2).MinCurrent
        ≤ ((setLimit hw now c force lp).2).chargeCurrent := by
  simp only [setLimit]
  by_cases h1 : c ≠ lp.chargeCurrent ∧ lp.MinCurrent ≤ c
  · rw [if_pos h1]
    have hcc := minCurrent_le_sent lp c hok hmin h1.2
    obtain ⟨cc, hccEq⟩ : ∃ x, (if lp.hasChargerEx then c else ((ratTrunc c : ℤ) : ℚ)) = x :=
      ⟨_, rfl⟩
    rw [hccEq] at hcc ⊢
    by_cases h2 : hw.maxCurrentOk = true
    · rw [if_pos h2]
      exact setLimitEnable_inv hw now cc force _ (fun _ => hcc) (fun _ => hcc)
    · rw [if_neg h2]
      exact hinv
  · rw [if_neg h1]
    refine setLimitEnable_inv hw now c force lp hinv ?_
    intro hle
    rcases not_and_or.mp h1 with hne | hlt
    · rw [not_not.mp hne] at hle
      exact hle
    · exact absurd hle hlt

theorem setLimit_min_inv (hw : Hw) (now : ℚ) (s : LoadPoint)
    (hmin : 0 ≤ s.MinCurrent)
    (hok : s.hasChargerEx = true ∨ s.MinCurrent.den = 1)
    (hz : s.chargeCurrent = 0)
    (hP : hw.maxCurrentOk = true) :
    ((setLimit hw now s.MinCurrent false s).2).enabled = true →
      ((setLimit hw now s.MinCurrent false s).2).MinCurrent
        ≤ ((setLimit hw now s.MinCurrent false s).2).chargeCurrent := by
  simp only [setLimit]
  by_cases h1 : s.MinCurrent ≠ s.chargeCurrent ∧ s.MinCurrent ≤ s.MinCurrent
  · rw [if_pos h1, if_pos hP]
    have hcc := minCurrent_le_sent s s.MinCurrent hok hmin le_rfl
    obtain ⟨cc, hccEq⟩ : ∃ x,
        (if s.hasChargerEx then s.MinCurrent else ((ratTrunc s.MinCurrent : ℤ) : ℚ)) = x :=
      ⟨_, rfl⟩
    rw [hccEq] at hcc ⊢
    exact setLimitEnable_inv hw now cc false _ (fun _ => hcc) (fun _ => hcc)
  · rw [if_neg h1]
    have hmz : s.MinCurrent = 0 := by
      rcases not_and_or.mp h1 with hne | hle
      · rw [not_not.mp hne, hz]
      · exact absurd le_rfl hle
    exact setLimitEnable_inv hw now _ false _ (fun _ => by simp [hmz, hz])
      (fun _ => by simp [hmz, hz])

theorem setLimitRun_keeps (calls : List LimitCall) (lp : LoadPoint)
    (hmin : 0 ≤ lp.MinCurrent)
    (hok : lp.hasChargerEx = true ∨ lp.MinCurrent.den = 1)
    (hinv : lp.enabled = true → lp.MinCurrent ≤ lp.chargeCurrent) :
    (setLimitRun lp calls).enabled = true →
      (setLimitRun lp calls).MinCurrent ≤ (setLimitRun lp calls).chargeCurrent := by
  induction calls generalizing lp with
  | nil => exact hinv
  | cons c rest ih =>
    simp only [setLimitRun]
    have hpres := setLimit_preserves c.hw c.tm c.amps c.force lp
    refine ih _ ?_ ?_ ?_
    · rw [hpres.2.2.2.1]
      exact hmin
    · rw [hpres.2.2.2.2.2, hpres.2.2.2.1]
      exact hok
    · exact setLimit_keeps_invariant c.hw c.tm c.amps c.force lp hmin hok hinv

theorem prepareInit_inv (hwP : Hw) (now : ℚ) (read : Option Bool) (lp0 : LoadPoint)
    (h0 : lp0.enabled = false) (hcc : lp0.chargeCurrent = 0)
    (hmin : 0 ≤ lp0.MinCurrent)
    (hok : lp0.hasChargerEx = true ∨ lp0.MinCurrent.den = 1)
    (hP : hwP.maxCurrentOk = true) :
    ((prepareInit hwP now read lp0).enabled = true →
        (prepareInit hwP now read lp0).MinCurrent
          ≤ (prepareInit hwP now read lp0).chargeCurrent)
      ∧ (prepareInit hwP now read lp0).MinCurrent = lp0.MinCurrent
      ∧ (prepareInit hwP now read lp0).hasChargerEx = lp0.hasChargerEx := by
  match read with
  | none =>
    exact ⟨fun he => absurd he (by simp [prepareInit, h0]), rfl, rfl⟩
  | some false =>
    exact ⟨fun he => absurd he (by simp [prepareInit]), by simp [prepareInit],
      by simp [prepareInit]⟩
  | some true =>
    simp only [prepareInit, if_pos]
    have hpres := setLimit_preserves hwP now lp0.MinCurrent false
      { lp0 with enabled := true, guardUpdated := now }
    refine ⟨?_, hpres.2.2.2.1, hpres.2.2.2.2.2⟩
    exact setLimit_min_inv hwP now
      { lp0 with enabled := true, guardUpdated := now } hmin hok hcc hP

/-- The NewLoadPoint defaults relevant here: 3p configured, status none,
min 6 A, max 16 A, 5 min guard duration; runtime fields start at the Go zero
values (disabled, zero current limit, idle timers). -/
def NewLoadPoint : LoadPoint := {
  status := ChargeStatus.N
  enabled := false
  Phases := 3
  measuredPhases := 0
  vehicle := none
  chargeCurrent := 0
  chargeCurrents := none
  chargePower := 0
  MinCurrent := 6
  MaxCurrent := 16
  GuardDuration := 300
  Enable := ⟨0, 0⟩
  Disable := ⟨0, 0⟩
  guardUpdated := 0
  pvTimer := 0
  phaseTimer := 0
  hasChargePhases := false
  hasChargerEx := false }

/-- A hardware outcome record whose current-limit call fails. -/
def hwBadCurrent : Hw := ⟨true, false, true⟩

/-- Counterexample to C9 as stated: Prepare reads an enabled charger and then
issues setLimit(minCurrent) ignoring its error; when the charger rejects the
current command, the resulting state has enabled = true with chargeCurrent
still 0, below minCurrent = 6, so the invariant is violated in a state
reachable via Prepare alone. -/
theorem c9_counterexample :
    (prepareInit hwBadCurrent 0 (some true) NewLoadPoint).enabled = true
      ∧ (prepareInit hwBadCurrent 0 (some true) NewLoadPoint).chargeCurrent
          < (prepareInit hwBadCurrent 0 (some true) NewLoadPoint).MinCurrent := by
  norm_num [prepareInit, setLimit, setLimitEnable, NewLoadPoint, hwBadCurrent]

/-- Claim C9 (amended): in every LoadPoint state reachable via Prepare and
any sequence of setLimit calls, enabled = true implies
chargeCurrent >= minCurrent, provided the current command issued by Prepare
succeeds (its error is ignored) and minCurrent is a non-negative value that
is integral whenever the charger lacks the fine-grained ChargerEx capability
(setLimit truncates the stored current to whole amps in that case); setLimit
itself preserves the invariant even when charger calls fail. -/
theorem c9_amended_enabled_invariant (lp0 : LoadPoint) (hwP : Hw) (now : ℚ)
    (read : Option Bool) (calls : List LimitCall)
    (h0 : lp0.enabled = false) (hc0 : lp0.chargeCurrent = 0)
    (hmin : 0 ≤ lp0.MinCurrent)
    (hok : lp0.hasChargerEx = true ∨ lp0.MinCurrent.den = 1)
    (hP : hwP.maxCurrentOk = true) :
    (setLimitRun (prepareInit hwP now read lp0) calls).enabled = true →
      (setLimitRun (prepareInit hwP now read lp0) calls).MinCurrent
        ≤ (setLimitRun (prepareInit hwP now read lp0) calls).chargeCurrent := by
  have h := prepareInit_inv hwP now read lp0 h0 hc0 hmin hok hP
  refine setLimitRun_keeps calls _ ?_ ?_ h.1
  · rw [h.2.1]
    exact hmin
  · rw [h.2.2, h.2.1]
    exact hok

/-- Witness for C9 (amended): the defaults prepared against an enabled
charger followed by one ordinary setLimit call keep the invariant. -/
theorem c9_witness :
    NewLoadPoint.enabled = false
      ∧ NewLoadPoint.chargeCurrent = 0
      ∧ (0 : ℚ) ≤ NewLoadPoint.MinCurrent
      ∧ NewLoadPoint.MinCurrent.den = 1
      ∧ hwOk.maxCurrentOk = true
      ∧ ((setLimitRun (prepareInit hwOk 0 (some true) NewLoadPoint)
            [⟨hwOk, 10, false, 100⟩]).enabled = true →
          (setLimitRun (prepareInit hwOk 0 (some true) NewLoadPoint)
              [⟨hwOk, 10, false, 100⟩]).MinCurrent
            ≤ (setLimitRun (prepareInit hwOk 0 (some true) NewLoadPoint)
                [⟨hwOk, 10, false, 100⟩]).chargeCurrent) := by
  refine ⟨rfl, rfl, by norm_num [NewLoadPoint], ?hden, rfl, ?_⟩
  case hden => norm_num [NewLoadPoint]
  exact c9_amended_enabled_invariant NewLoadPoint hwOk 0 (some true)
    [⟨hwOk, 10, false, 100⟩] rfl rfl (by norm_num [NewLoadPoint])
    (Or.inr (by norm_num [NewLoadPoint])) rfl

/-- One pv controller tick: run pvMaxCurrent at the given injected clock time
and site power. -/
def pvTick (hw : Hw) (mode : ChargeMode) (buffered : Bool) (lp : LoadPoint)
    (t sp : ℚ) : ℚ × LoadPoint :=
  pvMaxCurrent hw t mode sp buffered lp

/-- The outputs of a sequence of pv controller ticks, each given as a pair of
clock time and site power. -/
def pvOuts (hw : Hw) (mode : ChargeMode) (buffered : Bool) :
    LoadPoint → List (ℚ × ℚ) → List ℚ
  | _, [] => []
  | lp, x :: rest =>
    (pvTick hw mode buffered lp x.1 x.2).1
      :: pvOuts hw mode buffered (pvTick hw mode buffered lp x.1 x.2).2 rest

/-- The state after a sequence of pv controller ticks. -/
def pvEnd (hw : Hw) (mode : ChargeMode) (buffered : Bool) :
    LoadPoint → List (ℚ × ℚ) → LoadPoint
  | lp, [] => lp
  | lp, x :: rest =>
    pvEnd hw mode buffered (pvTick hw mode buffered lp x.1 x.2).2 rest

theorem pvOuts_append (hw : Hw) (mode : ChargeMode) (buffered : Bool)
    (lp : LoadPoint) (a b : List (ℚ × ℚ)) :
    pvOuts hw mode buffered lp (a ++ b)
      = pvOuts hw mode buffered lp a
          ++ pvOuts hw mode buffered (pvEnd hw mode buffered lp a) b := by
  induction a generalizing lp with
  | nil => rfl
  | cons x rest ih =>
    simp only [List.cons_append, pvOuts, pvEnd]
    exact congrArg _ (ih _)

/-- Characterization of one pvMaxCurrent tick in the plain-PV disable regime
(mode PV, charger enabled, no 1p3p capability, phase timer idle, no battery
buffering, no climate request, target current below minCurrent): when the
site power is at or above the disable threshold the timer is started or
continued and the output is 0 once Disable.Delay has elapsed since the timer
value, else minCurrent; when the site power is below the threshold the timer
is reset and the output is minCurrent. -/
theorem pvTick_disable_char (hw : Hw) (lp : LoadPoint) (t sp : ℚ)
    (hcp : lp.hasChargePhases = false) (hen : lp.enabled = true)
    (hph : lp.phaseTimer = 0) (hcl : climateActive lp = false)
    (htar : lp.pvTarget sp < lp.MinCurrent) :
    (lp.Disable.Threshold ≤ sp →
      pvTick hw ChargeMode.pv false lp t sp
        = (if lp.Disable.Delay ≤ t - (if lp.pvTimer = 0 then t else lp.pvTimer)
            then 0 else lp.MinCurrent,
           { lp with pvTimer := if lp.pvTimer = 0 then t else lp.pvTimer }))
      ∧ (¬lp.Disable.Threshold ≤ sp →
        pvTick hw ChargeMode.pv false lp t sp
          = (lp.MinCurrent, { lp with pvTimer := 0 })) := by
  rcases lp with ⟨st, en, Ph, mP, vh, cc, ccs, cp, mi, ma, gd, T1, T2, gu, pv, pt, b1, b2⟩
  subst hen
  subst hph
  subst hcp
  constructor
  · intro hth
    by_cases hz : pv = 0
    · subst hz
      simp [pvTick, pvMaxCurrent, hcl, htar, hth]
      try split_ifs <;> rfl
    · simp [pvTick, pvMaxCurrent, hcl, htar, hth, hz]
      try split_ifs <;> rfl
  · intro hth
    by_cases hz : pv = 0
    · subst hz
      simp [pvTick, pvMaxCurrent, LoadPoint.resetPVTimerIfRunning, hcl, htar, hth]
      try split_ifs <;> rfl
    · simp [pvTick, pvMaxCurrent, LoadPoint.resetPVTimerIfRunning, hcl, htar, hth, hz]
      try split_ifs <;> rfl

theorem pvOuts_disable_run (hw : Hw) (lp : LoadPoint) (s : ℚ) (ts : List (ℚ × ℚ))
    (hcp : lp.hasChargePhases = false) (hen : lp.enabled = true)
    (hph : lp.phaseTimer = 0) (hcl : climateActive lp = false)
    (hs : lp.pvTimer = s) (hsne : s ≠ 0)
    (hcond : ∀ x ∈ ts, lp.Disable.Threshold ≤ x.2 ∧ lp.pvTarget x.2 < lp.MinCurrent) :
    pvOuts hw ChargeMode.pv false lp ts
        = ts.map (fun x => if lp.Disable.Delay ≤ x.1 - s then 0 else lp.MinCurrent)
      ∧ pvEnd hw ChargeMode.pv false lp ts = lp := by
  induction ts with
  | nil => exact ⟨rfl, rfl⟩
  | cons x rest ih =>
    have hx := hcond x (List.mem_cons_self x rest)
    have hchar := (pvTick_disable_char hw lp x.1 x.2 hcp hen hph hcl hx.2).1 hx.1
    rw [hs] at hchar
    simp only [if_neg hsne] at hchar
    have hst : ({ lp with pvTimer := s } : LoadPoint) = lp := by
      rw [← hs]
    rw [hst] at hchar
    have ihx := ih (fun y hy => hcond y (List.mem_cons_of_mem x hy))
    constructor
    · simp only [pvOuts, hchar, List.map_cons]
      exact congrArg _ ihx.1
    · simp only [pvEnd, hchar]
      exact ihx.2

theorem pvRun_disable_idle (hw : Hw) (lp : LoadPoint) (x : ℚ × ℚ)
    (rest : List (ℚ × ℚ))
    (hcp : lp.hasChargePhases = false) (hen : lp.enabled = true)
    (hph : lp.phaseTimer = 0) (hcl : climateActive lp = false)
    (h0 : lp.pvTimer = 0) (ht1 : x.1 ≠ 0)
    (hcond : ∀ y ∈ x :: rest,
      lp.Disable.Threshold ≤ y.2 ∧ lp.pvTarget y.2 < lp.MinCurrent) :
    pvOuts hw ChargeMode.pv false lp (x :: rest)
        = (x :: rest).map
            (fun y => if lp.Disable.Delay ≤ y.1 - x.1 then 0 else lp.MinCurrent)
      ∧ pvEnd hw ChargeMode.pv false lp (x :: rest) = { lp with pvTimer := x.1 } := by
  have hx := hcond x (List.mem_cons_self x rest)
  have hchar := (pvTick_disable_char hw lp x.1 x.2 hcp hen hph hcl hx.2).1 hx.1
  simp only [if_pos h0] at hchar
  have hrun := pvOuts_disable_run hw { lp with pvTimer := x.1 } x.1 rest
    hcp hen hph hcl rfl ht1
    (fun y hy => hcond y (List.mem_cons_of_mem x hy))
  constructor
  · simp only [pvOuts, hchar, List.map_cons]
    exact congrArg _ hrun.1
  · simp only [pvEnd, hchar]
    exact hrun.2

/-- Claim C2: in plain PV mode while the charger is enabled (plain charger,
idle phase timer, no battery buffering, no climate request) with the computed
target current below minCurrent: (i) on a tick satisfying the disable power
condition with an idle timer, the timer starts at the tick time and
minCurrent is returned (the delay being positive); (ii) on a tick satisfying
the condition with the timer running since s, 0 is returned exactly when
Disable.Delay has elapsed since s, else minCurrent, the timer staying at s;
(iii) a tick failing the power condition resets the timer and returns
minCurrent; (iv) over any run of ticks all satisfying the condition, started
with an idle timer, the output is 0 exactly on the ticks at least
Disable.Delay after the first tick, and minCurrent before; (v) if the site
power drops below the threshold mid-wait, the disable never fires provided
each waiting stretch stays shorter than Disable.Delay. -/
theorem c2_pv_disable_hysteresis (hw : Hw) (lp : LoadPoint)
    (hcp : lp.hasChargePhases = false) (hen : lp.enabled = true)
    (hph : lp.phaseTimer = 0) (hcl : climateActive lp = false) :
    (∀ t sp, lp.pvTarget sp < lp.MinCurrent → lp.Disable.Threshold ≤ sp →
        lp.pvTimer = 0 → 0 < lp.Disable.Delay → t ≠ 0 →
        pvTick hw ChargeMode.pv false lp t sp
          = (lp.MinCurrent, { lp with pvTimer := t }))
      ∧ (∀ t sp s, lp.pvTarget sp < lp.MinCurrent → lp.Disable.Threshold ≤ sp →
          lp.pvTimer = s → s ≠ 0 →
          pvTick hw ChargeMode.pv false lp t sp
            = (if lp.Disable.Delay ≤ t - s then 0 else lp.MinCurrent, lp))
      ∧ (∀ t sp, lp.pvTarget sp < lp.MinCurrent → ¬lp.Disable.Threshold ≤ sp →
          pvTick hw ChargeMode.pv false lp t sp
            = (lp.MinCurrent, { lp with pvTimer := 0 }))
      ∧ (∀ x rest, lp.pvTimer = 0 → x.1 ≠ 0 →
          (∀ y ∈ x :: rest,
            lp.Disable.Threshold ≤ y.2 ∧ lp.pvTarget y.2 < lp.MinCurrent) →
          pvOuts hw ChargeMode.pv false lp (x :: rest)
            = (x :: rest).map
                (fun y => if lp.Disable.Delay ≤ y.1 - x.1 then 0 else lp.MinCurrent))
      ∧ (∀ x1 rest1 bad x2 rest2, lp.pvTimer = 0 → 0 < lp.MinCurrent →
          x1.1 ≠ 0 → x2.1 ≠ 0 →
          (∀ y ∈ x1 :: rest1,
            lp.Disable.Threshold ≤ y.2 ∧ lp.pvTarget y.2 < lp.MinCurrent) →
          (∀ y ∈ x1 :: rest1, y.1 - x1.1 < lp.Disable.Delay) →
          (¬lp.Disable.Threshold ≤ bad.2 ∧ lp.pvTarget bad.2 < lp.MinCurrent) →
          (∀ y ∈ x2 :: rest2,
            lp.Disable.Threshold ≤ y.2 ∧ lp.pvTarget y.2 < lp.MinCurrent) →
          (∀ y ∈ x2 :: rest2, y.1 - x2.1 < lp.Disable.Delay) →
          (0 : ℚ) ∉ pvOuts hw ChargeMode.pv false lp
            ((x1 :: rest1) ++ bad :: x2 :: rest2)) := by
  refine ⟨?_, ?_, ?_, ?_, ?_⟩
  · intro t sp htar hth h0 hdel ht
    have hchar := (pvTick_disable_char hw lp t sp hcp hen hph hcl htar).1 hth
    rw [if_pos h0] at hchar
    rw [hchar]
    have : ¬lp.Disable.Delay ≤ t - t := by
      rw [sub_self]
      exact not_le.mpr hdel
    rw [if_neg this]
  · intro t sp s htar hth hs hsne
    have hchar := (pvTick_disable_char hw lp t sp hcp hen hph hcl htar).1 hth
    rw [hs] at hchar
    simp only [if_neg hsne] at hchar
    have hst : ({ lp with pvTimer := s } : LoadPoint) = lp := by
      rw [← hs]
    rw [hst] at hchar
    exact hchar
  · intro t sp htar hth
    exact (pvTick_disable_char hw lp t sp hcp hen hph hcl htar).2 hth
  · intro x rest h0 ht hcond
    exact (pvRun_disable_idle hw lp x rest hcp hen hph hcl h0 ht hcond).1
  · intro x1 rest1 bad x2 rest2 h0 hm h1 h2 hc1 htm1 hbad hc2 htm2
    have hidle := pvRun_disable_idle hw lp x1 rest1 hcp hen hph hcl h0 h1 hc1
    have hbadchar := (pvTick_disable_char hw { lp with pvTimer := x1.1 } bad.1 bad.2
      hcp hen hph hcl hbad.2).2 hbad.1
    have hidle2 := pvRun_disable_idle hw { lp with pvTimer := 0 } x2 rest2
      hcp hen hph hcl rfl h2 hc2
    rw [pvOuts_append, hidle.2, hidle.1, pvOuts]
    simp only [hbadchar, hidle2.1]
    intro hmem
    rcases List.mem_append.mp hmem with hmem | hmem
    · obtain ⟨y, hy, hval⟩ := List.mem_map.mp hmem
      by_cases hc : lp.Disable.Delay ≤ y.1 - x1.1
      · exact absurd hc (not_le.mpr (htm1 y hy))
      · rw [if_neg hc] at hval
        exact hm.ne' hval
    · rcases List.mem_cons.mp hmem with hval | hmem
      · exact hm.ne hval
      · obtain ⟨y, hy, hval⟩ := List.mem_map.mp hmem
        by_cases hc : lp.Disable.Delay ≤ y.1 - x2.1
        · exact absurd hc (not_le.mpr (htm2 y hy))
        · rw [if_neg hc] at hval
          exact hm.ne' hval

/-- Witness for C2 on the sample charging state: one tick at 3600 s with
site power 100 W (at or above the zero disable threshold, target current
6 - 100/690 A below the 6 A minimum) starts the disable timer and returns
minCurrent. -/
theorem c2_witness :
    lpBase.pvTarget 100 < lpBase.MinCurrent
      ∧ lpBase.Disable.Threshold ≤ 100
      ∧ lpBase.pvTimer = 0
      ∧ 0 < lpBase.Disable.Delay
      ∧ pvTick hwOk ChargeMode.pv false lpBase 3600 100
          = (lpBase.MinCurrent, { lpBase with pvTimer := 3600 }) := by
  have htar : lpBase.pvTarget 100 < lpBase.MinCurrent := by
    norm_num [LoadPoint.pvTarget, LoadPoint.effectiveCurrent, LoadPoint.activePhases,
      LoadPoint.getVehiclePhases, goMin, expect, unknownPhases, maxIntGo,
      powerToCurrent, Voltage, mathMax, lpBase]
  refine ⟨htar, by norm_num [lpBase], rfl, by norm_num [lpBase], ?_⟩
  exact (c2_pv_disable_hysteresis hwOk lpBase rfl rfl rfl rfl).1 3600 100 htar
    (by norm_num [lpBase]) rfl (by norm_num [lpBase]) (by norm_num)

/-- Characterization of one pvMaxCurrent tick in the plain-PV enable regime
with a zero enable threshold (mode PV, charger disabled, no 1p3p capability,
no battery buffering, no climate request): when the target current reaches
minCurrent the timer is started or continued and the output is minCurrent
once Enable.Delay has elapsed since the timer value, else 0; when the target
current is below minCurrent — even a positive one — the timer is reset and
the output is 0. -/
theorem pvTick_enable_char (hw : Hw) (lp : LoadPoint) (t sp : ℚ)
    (hcp : lp.hasChargePhases = false) (hen : lp.enabled = false)
    (hcl : climateActive lp = false) (hthr : lp.Enable.Threshold = 0) :
    (lp.MinCurrent ≤ lp.pvTarget sp →
      pvTick hw ChargeMode.pv false lp t sp
        = (if lp.Enable.Delay ≤ t - (if lp.pvTimer = 0 then t else lp.pvTimer)
            then lp.MinCurrent else 0,
           { lp with pvTimer := if lp.pvTimer = 0 then t else lp.pvTimer }))
      ∧ (lp.pvTarget sp < lp.MinCurrent →
        pvTick hw ChargeMode.pv false lp t sp
          = (0, { lp with pvTimer := 0 })) := by
  rcases lp with ⟨st, en, Ph, mP, vh, cc, ccs, cp, mi, ma, gd, T1, T2, gu, pv, pt, b1, b2⟩
  subst hen
  subst hcp
  have hthr2 : T1.Threshold = 0 := hthr
  constructor
  · intro hmin
    by_cases hz : pv = 0
    · subst hz
      simp [pvTick, pvMaxCurrent, hcl, hthr, hthr2, hmin, not_lt.mpr hmin]
      try split_ifs <;> rfl
    · simp [pvTick, pvMaxCurrent, hcl, hthr, hthr2, hmin, not_lt.mpr hmin, hz]
      try split_ifs <;> rfl
  · intro htar
    by_cases hz : pv = 0
    · subst hz
      simp [pvTick, pvMaxCurrent, LoadPoint.resetPVTimerIfRunning, hcl, hthr, hthr2,
        not_le.mpr htar]
      try split_ifs <;> rfl
    · simp [pvTick, pvMaxCurrent, LoadPoint.resetPVTimerIfRunning, hcl, hthr, hthr2,
        not_le.mpr htar, hz]
      try split_ifs <;> rfl

theorem pvOuts_enable_run (hw : Hw) (lp : LoadPoint) (s : ℚ) (ts : List (ℚ × ℚ))
    (hcp : lp.hasChargePhases = false) (hen : lp.enabled = false)
    (hcl : climateActive lp = false) (hthr : lp.Enable.Threshold = 0)
    (hs : lp.pvTimer = s) (hsne : s ≠ 0)
    (hcond : ∀ x ∈ ts, lp.MinCurrent ≤ lp.pvTarget x.2) :
    pvOuts hw ChargeMode.pv false lp ts
        = ts.map (fun x => if lp.Enable.Delay ≤ x.1 - s then lp.MinCurrent else 0)
      ∧ pvEnd hw ChargeMode.pv false lp ts = lp := by
  induction ts with
  | nil => exact ⟨rfl, rfl⟩
  | cons x rest ih =>
    have hx := hcond x (List.mem_cons_self x rest)
    have hchar := (pvTick_enable_char hw lp x.1 x.2 hcp hen hcl hthr).1 hx
    rw [hs] at hchar
    simp only [if_neg hsne] at hchar
    have hst : ({ lp with pvTimer := s } : LoadPoint) = lp := by
      rw [← hs]
    rw [hst] at hchar
    have ihx := ih (fun y hy => hcond y (List.mem_cons_of_mem x hy))
    constructor
    · simp only [pvOuts, hchar, List.map_cons]
      exact congrArg _ ihx.1
    · simp only [pvEnd, hchar]
      exact ihx.2

theorem pvRun_enable_idle (hw : Hw) (lp : LoadPoint) (x : ℚ × ℚ)
    (rest : List (ℚ × ℚ))
    (hcp : lp.hasChargePhases = false) (hen : lp.enabled = false)
    (hcl : climateActive lp = false) (hthr : lp.Enable.Threshold = 0)
    (h0 : lp.pvTimer = 0) (ht1 : x.1 ≠ 0)
    (hcond : ∀ y ∈ x :: rest, lp.MinCurrent ≤ lp.pvTarget y.2) :
    pvOuts hw ChargeMode.pv false lp (x :: rest)
        = (x :: rest).map
            (fun y => if lp.Enable.Delay ≤ y.1 - x.1 then lp.MinCurrent else 0)
      ∧ pvEnd hw ChargeMode.pv false lp (x :: rest) = { lp with pvTimer := x.1 } := by
  have hx := hcond x (List.mem_cons_self x rest)
  have hchar := (pvTick_enable_char hw lp x.1 x.2 hcp hen hcl hthr).1 hx
  simp only [if_pos h0] at hchar
  have hrun := pvOuts_enable_run hw { lp with pvTimer := x.1 } x.1 rest
    hcp hen hcl hthr rfl ht1
    (fun y hy => hcond y (List.mem_cons_of_mem x hy))
  constructor
  · simp only [pvOuts, hchar, List.map_cons]
    exact congrArg _ hrun.1
  · simp only [pvEnd, hchar]
    exact hrun.2

/-- A disabled single-phase loadpoint with a zero enable threshold whose
enable timer has been running since t = 100 s. -/
def lpEnableCE : LoadPoint := {
  status := ChargeStatus.B
  enabled := false
  Phases := 1
  measuredPhases := 0
  vehicle := none
  chargeCurrent := 0
  chargeCurrents := none
  chargePower := 0
  MinCurrent := 6
  MaxCurrent := 16
  GuardDuration := 300
  Enable := ⟨60, 0⟩
  Disable := ⟨60, 0⟩
  guardUpdated := 0
  pvTimer := 100
  phaseTimer := 0
  hasChargePhases := false
  hasChargerEx := false }

/-- Counterexample to C7 as stated: with a zero enable threshold the code
requires targetCurrent >= minCurrent, not merely a positive target. At site
power -690 W the target current is 3 A, positive but below the 6 A minimum;
the enable timer has been running since 100 s and Enable.Delay = 60 s has
elapsed at t = 200 s, so under the claim pvMaxCurrent would have to return
minCurrent — the code instead resets the timer and returns 0. -/
theorem c7_counterexample :
    lpEnableCE.pvTarget (-690) = 3
      ∧ (0 : ℚ) < 3 ∧ (3 : ℚ) < lpEnableCE.MinCurrent
      ∧ lpEnableCE.Enable.Threshold = 0
      ∧ lpEnableCE.pvTimer = 100 ∧ (100 : ℚ) ≠ 0
      ∧ lpEnableCE.Enable.Delay ≤ 200 - 100
      ∧ pvMaxCurrent hwOk 200 ChargeMode.pv (-690) false lpEnableCE
          = (0, { lpEnableCE with pvTimer := 0 })
      ∧ (0 : ℚ) ≠ lpEnableCE.MinCurrent := by
  refine ⟨?_, by norm_num, by norm_num [lpEnableCE], rfl, rfl, by norm_num, by
    norm_num [lpEnableCE], ?_, by norm_num [lpEnableCE]⟩
  · norm_num [LoadPoint.pvTarget, LoadPoint.effectiveCurrent, LoadPoint.activePhases,
      LoadPoint.getVehiclePhases, goMin, expect, unknownPhases, maxIntGo,
      powerToCurrent, Voltage, mathMax, lpEnableCE]
  · norm_num [pvMaxCurrent, LoadPoint.pvTarget, LoadPoint.effectiveCurrent,
      LoadPoint.activePhases, LoadPoint.getVehiclePhases, goMin, expect, unknownPhases,
      maxIntGo, climateActive, LoadPoint.resetPVTimerIfRunning, powerToCurrent, Voltage,
      mathMax, mathMin, lpEnableCE, hwOk]
    decide

/-- Claim C7 (amended): in plain PV mode while the charger is disabled and the
configured enable threshold is 0 (plain charger, no battery buffering, no
climate request), the enable-hysteresis timer is started or continued
whenever the computed target current is at least minCurrent (a merely
positive target below minCurrent does not satisfy the enable condition and
resets the timer), and pvMaxCurrent returns minCurrent once Enable.Delay has
elapsed since the timer started; before the delay elapses it returns 0, and
whenever the target current is below minCurrent it resets the timer and
returns 0. Over a run of ticks started with an idle timer on which the
target current stays at or above minCurrent, the outputs are 0 before
Enable.Delay has elapsed since the first tick and minCurrent afterwards. -/
theorem c7_amended_pv_enable (hw : Hw) (lp : LoadPoint)
    (hcp : lp.hasChargePhases = false) (hen : lp.enabled = false)
    (hcl : climateActive lp = false) (hthr : lp.Enable.Threshold = 0) :
    (∀ t sp, lp.MinCurrent ≤ lp.pvTarget sp →
        pvTick hw ChargeMode.pv false lp t sp
          = (if lp.Enable.Delay ≤ t - (if lp.pvTimer = 0 then t else lp.pvTimer)
              then lp.MinCurrent else 0,
             { lp with pvTimer := if lp.pvTimer = 0 then t else lp.pvTimer }))
      ∧ (∀ t sp, lp.pvTarget sp < lp.MinCurrent →
          pvTick hw ChargeMode.pv false lp t sp = (0, { lp with pvTimer := 0 }))
      ∧ (∀ x rest, lp.pvTimer = 0 → x.1 ≠ 0 →
          (∀ y ∈ x :: rest, lp.MinCurrent ≤ lp.pvTarget y.2) →
          pvOuts hw ChargeMode.pv false lp (x :: rest)
            = (x :: rest).map
                (fun y => if lp.Enable.Delay ≤ y.1 - x.1
                    then lp.MinCurrent else 0)) := by
  refine ⟨?_, ?_, ?_⟩
  · intro t sp hmin
    exact (pvTick_enable_char hw lp t sp hcp hen hcl hthr).1 hmin
  · intro t sp htar
    exact (pvTick_enable_char hw lp t sp hcp hen hcl hthr).2 htar
  · intro x rest h0 ht hcond
    exact (pvRun_enable_idle hw lp x rest hcp hen hcl hthr h0 ht hcond).1

/-- Witness for C7 (amended) on a disabled loadpoint with a running enable
timer: one tick at 200 s with site power -4140 W (target current 18 A, above
the 6 A minimum) keeps the timer at 100 s and, the 60 s delay having elapsed,
returns minCurrent. -/
theorem c7_witness :
    lpEnableCE.MinCurrent ≤ lpEnableCE.pvTarget (-4140)
      ∧ pvTick hwOk ChargeMode.pv false lpEnableCE 200 (-4140)
          = (lpEnableCE.MinCurrent, lpEnableCE) := by
  have hmin : lpEnableCE.MinCurrent ≤ lpEnableCE.pvTarget (-4140) := by
    norm_num [LoadPoint.pvTarget, LoadPoint.effectiveCurrent, LoadPoint.activePhases,
      LoadPoint.getVehiclePhases, goMin, expect, unknownPhases, maxIntGo,
      powerToCurrent, Voltage, mathMax, lpEnableCE]
  refine ⟨hmin, ?_⟩
  have h := (c7_amended_pv_enable hwOk lpEnableCE rfl rfl rfl rfl).1 200 (-4140) hmin
  rw [h]
  norm_num [lpEnableCE]

/-- One pvScalePhases tick at injected clock time t with available power a
(minimum and maximum current fixed). -/
def psTick (hw : Hw) (mi ma : ℚ) (lp : LoadPoint) (t a : ℚ) : Bool × LoadPoint :=
  pvScalePhases hw t a mi ma lp

/-- The scale decisions of a sequence of pvScalePhases ticks, each given as a
pair of clock time and available power. -/
def psOuts (hw : Hw) (mi ma : ℚ) : LoadPoint → List (ℚ × ℚ) → List Bool
  | _, [] => []
  | lp, x :: rest =>
    (psTick hw mi ma lp x.1 x.2).1
      :: psOuts hw mi ma (psTick hw mi ma lp x.1 x.2).2 rest

/-- The state after a sequence of pvScalePhases ticks. -/
def psEnd (hw : Hw) (mi ma : ℚ) : LoadPoint → List (ℚ × ℚ) → LoadPoint
  | lp, [] => lp
  | lp, x :: rest => psEnd hw mi ma (psTick hw mi ma lp x.1 x.2).2 rest

/-- Characterization of one pvScalePhases tick on which the scale-down
condition holds (phase inputs in range, non-negative minCurrent, positive
delay for the start case): an idle phase timer is started and no scale is
reported; a running phase timer — whichever condition started it — makes the
tick wait while Disable.Delay has not yet elapsed since the timer value and
fire the switch to 1 phase once it has. -/
theorem psTick_down_char (hw : Hw) (mi ma : ℚ) (lp : LoadPoint) (t a : ℚ)
    (hp : lp.Phases ∈ ([0, 1, 2, 3] : List ℤ))
    (hv : lp.getVehiclePhases ∈ ([0, 1, 2, 3] : List ℤ))
    (hm : lp.measuredPhases ∈ ([0, 1, 2, 3] : List ℤ))
    (hmin : 0 ≤ mi)
    (hdown : powerToCurrent a lp.activePhases < mi ∧ 1 < lp.activePhases) :
    (lp.phaseTimer = 0 → 0 < lp.Disable.Delay →
        psTick hw mi ma lp t a = (false, { lp with phaseTimer := t }))
      ∧ (lp.phaseTimer ≠ 0 → ¬lp.Disable.Delay ≤ t - lp.phaseTimer →
          psTick hw mi ma lp t a = (false, lp))
      ∧ (lp.phaseTimer ≠ 0 → lp.Disable.Delay ≤ t - lp.phaseTimer →
          psTick hw mi ma lp t a = (true, (scalePhases hw t 1 lp).2)) := by
  have hupn : ¬mi ≤ powerToCurrent a lp.maxActivePhases :=
    fun hup => (active_le_max_exclusive lp a mi hp hv hm hmin).2 ⟨hdown, hup⟩
  refine ⟨?_, ?_, ?_⟩
  · intro h0 hdel
    have hne : ¬lp.Disable.Delay ≤ t - t := by
      rw [sub_self]
      exact not_le.mpr hdel
    simp only [psTick, pvScalePhases]
    rw [if_pos hdown, if_pos h0, if_neg hne]
    simp only [pvScaleUp]
    rw [if_neg (fun h => hupn h.1)]
    simp
  · intro hne hnd
    simp only [psTick, pvScalePhases]
    rw [if_pos hdown, if_neg hne, if_neg hnd]
    simp only [pvScaleUp]
    rw [if_neg (fun h => hupn h.1)]
    simp
  · intro hne hd
    simp only [psTick, pvScalePhases]
    rw [if_pos hdown, if_neg hne, if_pos hd]

/-- A tick on which neither the scale-down nor the scale-up condition holds
resets a running phase timer and reports no scale. -/
theorem psTick_reset (hw : Hw) (mi ma : ℚ) (lp : LoadPoint) (t a : ℚ)
    (hdownn : ¬(powerToCurrent a lp.activePhases < mi ∧ 1 < lp.activePhases))
    (hupn : ¬(mi ≤ powerToCurrent a lp.maxActivePhases
        ∧ (1 < lp.maxActivePhases ∧ lp.Phases < lp.maxActivePhases)))
    (htne : lp.phaseTimer ≠ 0) :
    psTick hw mi ma lp t a = (false, { lp with phaseTimer := 0 }) := by
  simp only [psTick, pvScalePhases]
  rw [if_neg hdownn]
  simp only [pvScaleUp]
  rw [if_neg hupn]
  rw [if_pos ⟨trivial, htne⟩]

theorem psOuts_down_wait (hw : Hw) (mi ma : ℚ) (lp : LoadPoint) (s : ℚ)
    (ts : List (ℚ × ℚ))
    (hp : lp.Phases ∈ ([0, 1, 2, 3] : List ℤ))
    (hv : lp.getVehiclePhases ∈ ([0, 1, 2, 3] : List ℤ))
    (hm : lp.measuredPhases ∈ ([0, 1, 2, 3] : List ℤ))
    (hmin : 0 ≤ mi)
    (hs : lp.phaseTimer = s) (hsne : s ≠ 0)
    (hcond : ∀ x ∈ ts,
      (powerToCurrent x.2 lp.activePhases < mi ∧ 1 < lp.activePhases)
        ∧ x.1 - s < lp.Disable.Delay) :
    psOuts hw mi ma lp ts = ts.map (fun _ => false)
      ∧ psEnd hw mi ma lp ts = lp := by
  induction ts with
  | nil => exact ⟨rfl, rfl⟩
  | cons x rest ih =>
    have hx := hcond x (List.mem_cons_self x rest)
    have htne : lp.phaseTimer ≠ 0 := by
      rw [hs]
      exact hsne
    have hnd : ¬lp.Disable.Delay ≤ x.1 - lp.phaseTimer := by
      rw [hs]
      exact not_le.mpr hx.2
    have hchar := (psTick_down_char hw mi ma lp x.1 x.2 hp hv hm hmin hx.1).2.1
      htne hnd
    have ihx := ih (fun y hy => hcond y (List.mem_cons_of_mem x hy))
    constructor
    · simp only [psOuts, hchar, List.map_cons]
      exact congrArg _ ihx.1
    · simp only [psEnd, hchar]
      exact ihx.2

theorem psRun_down_idle (hw : Hw) (mi ma : ℚ) (lp : LoadPoint) (x : ℚ × ℚ)
    (rest : List (ℚ × ℚ))
    (hp : lp.Phases ∈ ([0, 1, 2, 3] : List ℤ))
    (hv : lp.getVehiclePhases ∈ ([0, 1, 2, 3] : List ℤ))
    (hm : lp.measuredPhases ∈ ([0, 1, 2, 3] : List ℤ))
    (hmin : 0 ≤ mi)
    (h0 : lp.phaseTimer = 0) (ht1 : x.1 ≠ 0) (hdel : 0 < lp.Disable.Delay)
    (hcond : ∀ y ∈ x :: rest,
      powerToCurrent y.2 lp.activePhases < mi ∧ 1 < lp.activePhases)
    (hwait : ∀ y ∈ rest, y.1 - x.1 < lp.Disable.Delay) :
    psOuts hw mi ma lp (x :: rest) = (x :: rest).map (fun _ => false)
      ∧ psEnd hw mi ma lp (x :: rest) = { lp with phaseTimer := x.1 } := by
  have hx := hcond x (List.mem_cons_self x rest)
  have hchar := (psTick_down_char hw mi ma lp x.1 x.2 hp hv hm hmin hx).1 h0 hdel
  have hrun := psOuts_down_wait hw mi ma { lp with phaseTimer := x.1 } x.1 rest
    hp hv hm hmin rfl ht1
    (fun y hy => ⟨hcond y (List.mem_cons_of_mem x hy), hwait y hy⟩)
  constructor
  · simp only [psOuts, hchar, List.map_cons]
    exact congrArg _ hrun.1
  · simp only [psEnd, hchar]
    exact hrun.2

/-- A 1p3p-switchable loadpoint with unknown configured, vehicle and measured
phases (so activePhases = maxActivePhases = 3) and an idle phase timer. -/
def lpPhaseCE : LoadPoint := {
  status := ChargeStatus.A
  enabled := false
  Phases := 0
  measuredPhases := 0
  vehicle := none
  chargeCurrent := 0
  chargeCurrents := none
  chargePower := 0
  MinCurrent := 6
  MaxCurrent := 16
  GuardDuration := 300
  Enable := ⟨60, 0⟩
  Disable := ⟨60, 0⟩
  guardUpdated := 0
  pvTimer := 0
  phaseTimer := 0
  hasChargePhases := true
  hasChargerEx := false }

/-- Counterexample to C4 as stated: the phase timer is shared between the
scale-down and scale-up debounces and is not tied to the scale-down
condition. At t = 100 s with 4140 W available the scale-down condition fails
(target 6 A is not below minCurrent 6 A) but the scale-up condition starts
the timer; at t = 160 s the available power has dropped to 0 W, the
scale-down condition holds for the first time, and because 160 - 100 equals
Disable.Delay = 60 s the switch to 1 phase fires immediately — the
scale-down condition has not held continuously for Disable.Delay since the
timer started. -/
theorem c4_counterexample :
    ¬(powerToCurrent 4140 lpPhaseCE.activePhases < 6 ∧ 1 < lpPhaseCE.activePhases)
      ∧ pvScalePhases hwOk 100 4140 6 16 lpPhaseCE
          = (false, { lpPhaseCE with phaseTimer := 100 })
      ∧ (powerToCurrent 0 lpPhaseCE.activePhases < 6 ∧ 1 < lpPhaseCE.activePhases)
      ∧ lpPhaseCE.Disable.Delay = 60
      ∧ (pvScalePhases hwOk 160 0 6 16 { lpPhaseCE with phaseTimer := 100 }).1
          = true := by
  refine ⟨?_, ?_, ?_, rfl, ?_⟩
  · norm_num [powerToCurrent, Voltage, LoadPoint.activePhases,
      LoadPoint.getVehiclePhases, goMin, expect, unknownPhases, maxIntGo, lpPhaseCE]
  · norm_num [pvScalePhases, pvScaleUp, powerToCurrent, Voltage,
      LoadPoint.activePhases, LoadPoint.maxActivePhases, LoadPoint.getVehiclePhases,
      goMin, expect, unknownPhases, maxIntGo, lpPhaseCE]
  · refine ⟨?_, by decide⟩
    norm_num [powerToCurrent, Voltage, LoadPoint.activePhases,
      LoadPoint.getVehiclePhases, goMin, expect, unknownPhases, maxIntGo, lpPhaseCE]
  · norm_num [pvScalePhases, pvScaleUp, powerToCurrent, Voltage,
      LoadPoint.activePhases, LoadPoint.maxActivePhases, LoadPoint.getVehiclePhases,
      goMin, expect, unknownPhases, maxIntGo, lpPhaseCE]

/-- Claim C4 (amended): with phase inputs in range, non-negative minCurrent
and a positive Disable.Delay, pvScalePhases commands the switch to 1 phase
and reports a scale exactly on a tick where the scale-down condition
(powerToCurrent(availablePower, activePhases) < minCurrent and
activePhases > 1) holds and at least Disable.Delay has elapsed since the
shared phase timer started — the timer may have been started by either the
scale-down or the scale-up debounce, so the scale-down condition need not
have held continuously. On a scale-down tick with an idle timer the timer is
started; while the delay has not elapsed the tick only waits; over a run of
scale-down ticks started from an idle timer and all within Disable.Delay of
the first, no scale fires and the timer keeps the first tick time. On any
tick where neither condition holds, a running phase timer is reset to the
idle state. -/
theorem c4_amended_scale_down (hw : Hw) (mi ma : ℚ) (lp : LoadPoint)
    (hp : lp.Phases ∈ ([0, 1, 2, 3] : List ℤ))
    (hv : lp.getVehiclePhases ∈ ([0, 1, 2, 3] : List ℤ))
    (hm : lp.measuredPhases ∈ ([0, 1, 2, 3] : List ℤ))
    (hmin : 0 ≤ mi) (hdel : 0 < lp.Disable.Delay) :
    (∀ t a, (powerToCurrent a lp.activePhases < mi ∧ 1 < lp.activePhases) →
        lp.phaseTimer = 0 →
        psTick hw mi ma lp t a = (false, { lp with phaseTimer := t }))
      ∧ (∀ t a, (powerToCurrent a lp.activePhases < mi ∧ 1 < lp.activePhases) →
          lp.phaseTimer ≠ 0 → ¬lp.Disable.Delay ≤ t - lp.phaseTimer →
          psTick hw mi ma lp t a = (false, lp))
      ∧ (∀ t a, (powerToCurrent a lp.activePhases < mi ∧ 1 < lp.activePhases) →
          lp.phaseTimer ≠ 0 → lp.Disable.Delay ≤ t - lp.phaseTimer →
          psTick hw mi ma lp t a = (true, (scalePhases hw t 1 lp).2))
      ∧ (∀ t a, ¬(powerToCurrent a lp.activePhases < mi ∧ 1 < lp.activePhases) →
          ¬(mi ≤ powerToCurrent a lp.maxActivePhases
              ∧ (1 < lp.maxActivePhases ∧ lp.Phases < lp.maxActivePhases)) →
          lp.phaseTimer ≠ 0 →
          psTick hw mi ma lp t a = (false, { lp with phaseTimer := 0 }))
      ∧ (∀ x rest, lp.phaseTimer = 0 → x.1 ≠ 0 →
          (∀ y ∈ x :: rest,
            powerToCurrent y.2 lp.activePhases < mi ∧ 1 < lp.activePhases) →
          (∀ y ∈ rest, y.1 - x.1 < lp.Disable.Delay) →
          psOuts hw mi ma lp (x :: rest) = (x :: rest).map (fun _ => false)
            ∧ psEnd hw mi ma lp (x :: rest) = { lp with phaseTimer := x.1 }) := by
  refine ⟨?_, ?_, ?_, ?_, ?_⟩
  · intro t a hdown h0
    exact (psTick_down_char hw mi ma lp t a hp hv hm hmin hdown).1 h0 hdel
  · intro t a hdown htne hnd
    exact (psTick_down_char hw mi ma lp t a hp hv hm hmin hdown).2.1 htne hnd
  · intro t a hdown htne hd
    exact (psTick_down_char hw mi ma lp t a hp hv hm hmin hdown).2.2 htne hd
  · intro t a hdownn hupn htne
    exact psTick_reset hw mi ma lp t a hdownn hupn htne
  · intro x rest h0 ht1 hcond hwait
    exact psRun_down_idle hw mi ma lp x rest hp hv hm hmin h0 ht1 hdel hcond hwait

/-- Witness for C4 (amended) on the switchable loadpoint with its phase timer
running since 100 s: at t = 160 s with no available power the scale-down
condition holds, the 60 s delay has elapsed, and the tick reports a scale
with the state of the forced switch to 1 phase. -/
theorem c4_witness :
    (0 : ℚ) ≤ 6
      ∧ 0 < ({ lpPhaseCE with phaseTimer := 100 } : LoadPoint).Disable.Delay
      ∧ (powerToCurrent 0 ({ lpPhaseCE with phaseTimer := 100 } : LoadPoint).activePhases < 6
          ∧ 1 < ({ lpPhaseCE with phaseTimer := 100 } : LoadPoint).activePhases)
      ∧ psTick hwOk 6 16 { lpPhaseCE with phaseTimer := 100 } 160 0
          = (true, (scalePhases hwOk 160 1 { lpPhaseCE with phaseTimer := 100 }).2) := by
  have hdown : powerToCurrent 0 ({ lpPhaseCE with phaseTimer := 100 } : LoadPoint).activePhases < 6
      ∧ 1 < ({ lpPhaseCE with phaseTimer := 100 } : LoadPoint).activePhases := by
    refine ⟨?_, by decide⟩
    norm_num [powerToCurrent, Voltage, LoadPoint.activePhases,
      LoadPoint.getVehiclePhases, goMin, expect, unknownPhases, maxIntGo, lpPhaseCE]
  refine ⟨by norm_num, by norm_num [lpPhaseCE], hdown, ?_⟩
  exact (c4_amended_scale_down hwOk 6 16 { lpPhaseCE with phaseTimer := 100 }
    (by decide) (by decide) (by decide) (by norm_num) (by norm_num [lpPhaseCE])).2.2.1
    160 0 hdown (by norm_num) (by norm_num [lpPhaseCE])

end Evcc
